import Mathlib

/-!
# Verification of the Lutum research orchestrator against its specification

This file gives a shallow embedding, in Lean 4, of the parts of the
Project-Lutum-Veritas code base that the specification's testable claims
are about, and proves or refutes each claim against that embedding.

Conventions:
* Python strings are modelled as `List Char` (or `String` where more
  convenient; `String` is a wrapper around `List Char`).
* Python functions that can raise are modelled with `Except String`.
* External library behaviour (CPython `urllib.parse`, `ipaddress`,
  `re`) is modelled by executable Lean functions whose doc comments
  state exactly which library behaviour they capture.
-/

namespace Lutum

/-! ## Basic character and string helpers (models of Python `str` methods) -/

/-- Model of Python's ASCII lower-casing of a single character
(`str.lower` restricted to ASCII, which is all the code compares). -/
def charLower (c : Char) : Char :=
  if 'A' ≤ c ∧ c ≤ 'Z' then Char.ofNat (c.toNat + 32) else c

/-- Decimal digit test, `'0' ≤ c ≤ '9'` (model of the regex class `\d`
and of Python `str.isdigit` on ASCII). -/
def isDigitC (c : Char) : Bool := '0' ≤ c ∧ c ≤ '9'

/-- Model of Python `str.strip()` whitespace test (ASCII whitespace). -/
def isSpaceC (c : Char) : Bool :=
  c = ' ' ∨ c = '\t' ∨ c = '\n' ∨ c = '\r' ∨ c = '\x0b' ∨ c = '\x0c'

/-- Model of Python `str.strip()`: drop whitespace from both ends. -/
def pyStrip (l : List Char) : List Char :=
  (l.dropWhile isSpaceC).reverse.dropWhile isSpaceC |>.reverse

/-- `sub.isInfixL l` : does `sub` occur as a contiguous substring of `l`?
Model of Python's `sub in l`. -/
def isInfixL (sub : List Char) : List Char → Bool
  | [] => sub.isPrefixOf []
  | c :: cs => sub.isPrefixOf (c :: cs) || isInfixL sub cs

/-- Case-insensitive ASCII prefix test: model of
`s.lower().startswith(p)` for an all-lower-case literal `p`. -/
def lowerStartsWith (p : List Char) (l : List Char) : Bool :=
  p.isPrefixOf (l.map charLower)

/-- Scanner for `replaceAllL`; the fuel (initially the input length,
each step consumes at least one character) keeps it structurally
recursive, hence kernel-computable. -/
def replaceAllAux (pat repl : List Char) : Nat → List Char → List Char
  | 0, l => l
  | _ + 1, [] => []
  | fuel + 1, c :: cs =>
    if pat ≠ [] ∧ pat.isPrefixOf (c :: cs) then
      repl ++ replaceAllAux pat repl fuel ((c :: cs).drop pat.length)
    else
      c :: replaceAllAux pat repl fuel cs

/-- Model of Python `str.replace(pat, repl)` for a non-empty literal
`pat`: leftmost, non-overlapping, left-to-right; the replacement text is
not rescanned. -/
def replaceAllL (pat repl : List Char) (l : List Char) : List Char :=
  replaceAllAux pat repl l.length l

/-- Everything after the first occurrence of `c`, if any
(model of Python `s.split(c, 1)[1]` guarded by `c in s`). -/
def afterFirst (c : Char) : List Char → Option (List Char)
  | [] => none
  | x :: xs => if x = c then some xs else afterFirst c xs

/-- Model of Python list indexing `l[i]` with negative-index support:
`l[-1]` is the last element; an out-of-range index gives `none`
(Python raises `IndexError`). -/
def pyIndex (l : List String) (i : Int) : Option String :=
  if 0 ≤ i then l.get? i.toNat
  else if (-i).toNat ≤ l.length then l.get? (l.length - (-i).toNat)
  else none

/-! ## Decimal numerals

`natRepr n` models Python's `str(n)` for a natural number; `parseVal`
models `int(s)` on a non-empty digit string. The fuel formulation keeps
the definition structurally recursive (hence kernel-computable). -/

def digitChar (n : Nat) : Char := Char.ofNat (48 + n)

def natReprAux : Nat → Nat → List Char
  | 0, _ => []
  | fuel + 1, n =>
    if n < 10 then [digitChar n]
    else natReprAux fuel (n / 10) ++ [digitChar (n % 10)]

/-- Model of Python `str(n)` for `n : Nat` (decimal, no leading zeros). -/
def natRepr (n : Nat) : List Char := natReprAux (n + 1) n

/-- Model of Python `str(i)` for `i : Int` (an optional leading minus). -/
def intRepr (i : Int) : List Char :=
  if i < 0 then '-' :: natRepr (-i).toNat else natRepr i.toNat

/-- Model of Python `int(s)` on a digit string. -/
def parseVal (d : List Char) : Nat :=
  d.foldl (fun a c => 10 * a + (c.toNat - 48)) 0

/-! ## Citation tokens

The orchestrator's `renumber_citations` (in
`lutum_backend/routes/research.py`) works on citation tokens `[N]`:

* `re.findall(r'\[(\d+)\]', text)` collects the digit groups of all
  (leftmost, non-overlapping) tokens;
* `re.sub(rf'\[{local_num}\]', f'[{global_num}]', result)` replaces all
  occurrences of one literal token.

Both are faithfully modelled through a single scan `tokenize` that
splits a character list into literal characters and `[digits]` tokens.
The scan is the regex scan: a token starts at a `[`, takes a non-empty
maximal digit run, and closes with `]`; on failure the scan resumes
after the `[` (equivalently, at the next `[`, since a token's interior
contains no `[`). -/

inductive Seg where
  | lit (c : Char)
  | tok (d : List Char)
  deriving DecidableEq, Repr

/-- The token scanner as a state machine. The second argument is `some
ds` while the scan is inside a candidate token `[ds…`. It is structural
in the character list, hence kernel-computable. -/
def tokAux : List Char → Option (List Char) → List Seg
  | [], none => []
  | [], some ds => Seg.lit '[' :: ds.map Seg.lit
  | c :: cs, none =>
    if c = '[' then tokAux cs (some [])
    else Seg.lit c :: tokAux cs none
  | c :: cs, some ds =>
    if c = '[' then (Seg.lit '[' :: ds.map Seg.lit) ++ tokAux cs (some [])
    else if isDigitC c then tokAux cs (some (ds ++ [c]))
    else if c = ']' ∧ ds ≠ [] then Seg.tok ds :: tokAux cs none
    else (Seg.lit '[' :: ds.map Seg.lit) ++ (Seg.lit c :: tokAux cs none)

/-- Split a text into citation tokens and literal characters
(model of the scan performed by `re.findall(r'\[(\d+)\]', …)` and
`re.sub(rf'\[{n}\]', …)`). -/
def tokenize (l : List Char) : List Seg := tokAux l none

/-- Rebuild the text from the token split. -/
def render (segs : List Seg) : List Char :=
  segs.flatMap fun s => match s with
    | .lit c => [c]
    | .tok d => '[' :: d ++ [']']

/-- Model of `re.findall(r'\[(\d+)\]', text)`: the digit groups of all
citation tokens, in order. -/
def extractCits (l : List Char) : List (List Char) :=
  (tokenize l).filterMap fun s => match s with
    | .tok d => some d
    | .lit _ => none

/-- Apply a replacement to one token's digit content, leaving literal
characters alone. -/
def segApply (f : List Char → List Char) : Seg → Seg
  | .lit c => .lit c
  | .tok d => .tok (f d)

/-- Model of `re.sub(rf'\[{n}\]', f'[{g}]', text)` as used in
`renumber_citations`: every citation token whose digit group is the
decimal numeral of `n` is rewritten to the numeral of `g`. -/
def replCit (n : Nat) (g : Int) (l : List Char) : List Char :=
  render ((tokenize l).map (segApply fun d => if d = natRepr n then intRepr g else d))

/-! ### Scanner equations (regex-style reading of `tokAux`) -/

/-- Maximal digit run: `takeDigits l = (d, rest)` with `l = d ++ rest`,
`d` all digits, and `rest` not starting with a digit. -/
def takeDigits : List Char → List Char × List Char
  | [] => ([], [])
  | c :: cs =>
    if isDigitC c then
      let p := takeDigits cs
      (c :: p.1, p.2)
    else ([], c :: cs)

/-- A substitution `F` on token contents is admissible when it maps
non-empty digit groups to non-empty digit groups (as the renumbering
substitutions do). -/
def AdmissibleSub (F : List Char → List Char) : Prop :=
  ∀ d : List Char, d ≠ [] → (∀ c ∈ d, isDigitC c = true) →
    (F d ≠ [] ∧ ∀ c ∈ F d, isDigitC c = true)

/-- The content substitution performed by one `re.sub` step of
`renumber_citations`. -/
def citSub (n : Nat) (g : Int) (d : List Char) : List Char :=
  if d = natRepr n then intRepr g else d

/-- The text-level effect of the whole descending `re.sub` loop of
`renumber_citations`: the listed locals are substituted in order. -/
def replCitFold (toGlob : Nat → Int) (steps : List Nat) (l : List Char) : List Char :=
  steps.foldl (fun t m => replCit m (toGlob m) t) l

/-- The corresponding composite substitution on a single token's
digit group. -/
def citSubFold (toGlob : Nat → Int) (steps : List Nat) (d : List Char) : List Char :=
  steps.foldl (fun d m => citSub m (toGlob m) d) d

/-! ## The source registry and `renumber_citations`

Embedding of `lutum_backend/routes/research.py`, lines 817–853:

```python
source_registry: dict[int, str] = {}
source_counter = 1

def renumber_citations(text, local_urls, start_num):
    result = text
    current_num = start_num
    local_nums = set(int(m) for m in re.findall(r'\[(\d+)\]', text))
    local_to_global = {}
    for local_num in sorted(local_nums):
        local_to_global[local_num] = current_num
        current_num += 1
    for local_num in sorted(local_nums, reverse=True):
        global_num = local_to_global[local_num]
        result = re.sub(rf'\[{local_num}\]', f'[{global_num}]', result)
        if local_num - 1 < len(local_urls):
            source_registry[global_num] = local_urls[local_num - 1]
    return result, current_num
```

The registry is a finite map `Int → String` modelled as an association
list with overwrite-on-insert (Python `dict` assignment); negative
indexing of `local_urls` (possible when a text cites `[0]`) is modelled
by `pyIndex`, and the `IndexError` it can raise by `Except.error`. -/

abbrev Registry := List (Int × String)

/-- Python `dict` assignment `reg[k] = v`. -/
def regSet (reg : Registry) (k : Int) (v : String) : Registry :=
  (k, v) :: reg.filter (fun p => p.1 ≠ k)

/-- Python `dict` lookup `reg.get(k)`. -/
def regGet (reg : Registry) (k : Int) : Option String :=
  (reg.find? (fun p => p.1 = k)).map (·.2)

/-- `sorted(set(int(m) for m in re.findall(r'\[(\d+)\]', text)))`:
the distinct local citation numbers of a text, ascending. -/
def sortedLocals (text : List Char) : List Nat :=
  List.insertionSort (· ≤ ·) ((extractCits text).map parseVal).dedup

/-- The `local_to_global` mapping: the `i`-th smallest local number is
assigned `start_num + i`. -/
def localToGlobal (text : List Char) (start_num : Int) (m : Nat) : Int :=
  start_num + ((sortedLocals text).indexOf m : Int)

/-- The descending substitution-and-registration loop of
`renumber_citations` (`for local_num in sorted(local_nums, reverse=True)`). -/
def renumLoop (local_urls : List String) (toGlob : Nat → Int) :
    List Nat → List Char × Registry → Except String (List Char × Registry)
  | [], s => .ok s
  | m :: rest, (t, reg) =>
    let t' := replCit m (toGlob m) t
    if ((m : Int) - 1) < (local_urls.length : Int) then
      match pyIndex local_urls ((m : Int) - 1) with
      | some u => renumLoop local_urls toGlob rest (t', regSet reg (toGlob m) u)
      | none => .error "IndexError: list index out of range"
    else renumLoop local_urls toGlob rest (t', reg)

/-- `renumber_citations(text, local_urls, start_num)` under registry
state `reg`: returns the rewritten text, the next available global
number, and the updated registry. -/
def renumber_citations (reg : Registry) (text : List Char)
    (local_urls : List String) (start_num : Int) :
    Except String (List Char × Int × Registry) :=
  (renumLoop local_urls (localToGlobal text start_num) (sortedLocals text).reverse
      (text, reg)).map
    (fun s => (s.1, start_num + ((sortedLocals text).length : Int), s.2))

/-- Embedding of `research.py` lines 1193–1197 (identically lines
1817–1821 in the Academic orchestrator): after a dossier is parsed,
its text is renumbered at the current counter, and — when the key
learnings are non-empty — the learnings are renumbered starting at
`source_counter - len(dossier_urls)`, the learnings counter being
discarded. -/
def processDossierCitations (reg : Registry) (counter : Int)
    (dossier keyLearnings : List Char) (dossier_urls : List String) :
    Except String (List Char × List Char × Int × Registry) :=
  match renumber_citations reg dossier dossier_urls counter with
  | .error e => .error e
  | .ok (t', c', reg') =>
    if keyLearnings = [] then .ok (t', keyLearnings, c', reg')
    else
      match renumber_citations reg' keyLearnings dossier_urls (c' - dossier_urls.length) with
      | .error e => .error e
      | .ok (k', _, reg'') => .ok (t', k', c', reg'')

/-! ## URL validation (`lutum/core/security.py`, lines 25–149)

`validate_url` is embedded together with executable models of the two
CPython library functions it relies on:

* `pyUrlparse` models `urllib.parse.urlparse` restricted to the fields
  the code reads (`scheme`, `hostname`, `port`).  CPython evaluates
  `.port` lazily and raises `ValueError` there; the model parses
  eagerly.  This preserves `validate_url`'s value: every input on which
  CPython raises (inside the `try`) makes `validate_url` return
  `False`, and the model's corresponding `Except.error` does too.
* `pyIpAddress` models `ipaddress.ip_address` — exactly for dotted-quad
  IPv4 literals, coarsely for IPv6 literals (which can only reach it
  through a bracketed host).

A Python value (`None`, non-strings) is modelled by `PyVal`. -/

inductive PyVal where
  | none
  | pstr (s : String)
  | pint (n : Int)
  | pbool (b : Bool)
  deriving DecidableEq

def isAsciiAlpha (c : Char) : Bool :=
  ('a' ≤ c ∧ c ≤ 'z') ∨ ('A' ≤ c ∧ c ≤ 'Z')

def isHexC (c : Char) : Bool :=
  isDigitC c ∨ ('a' ≤ c ∧ c ≤ 'f') ∨ ('A' ≤ c ∧ c ≤ 'F')

def strLower (l : List Char) : List Char := l.map charLower

def endsWithL (suf l : List Char) : Bool := suf.reverse.isPrefixOf l.reverse

/-- RFC 3986 scheme characters, as accepted by `urllib.parse`. -/
def schemeChar (c : Char) : Bool :=
  isAsciiAlpha c ∨ isDigitC c ∨ c = '+' ∨ c = '-' ∨ c = '.'

/-- Everything after the last occurrence of `c` (Python
`l.rpartition(c)[2]` when `c` occurs, else `l` itself). -/
def afterLastCh (c : Char) (l : List Char) : List Char :=
  if l.contains c then (l.reverse.takeWhile (· ≠ c)).reverse else l

def headAlpha (l : List Char) : Bool :=
  match l.head? with
  | some c => isAsciiAlpha c
  | Option.none => false

/-- `BLOCKED_PORTS` (security.py line 28). -/
def BLOCKED_PORTS : List Nat := [22, 23, 25, 3306, 5432, 6379, 27017, 11211]

/-- `if port and port in BLOCKED_PORTS` (security.py line 96): a zero
port is falsy in Python. -/
def portBlocked : Option Nat → Bool
  | some p => !(p == 0) && BLOCKED_PORTS.contains p
  | Option.none => false

structure UrlInfo where
  scheme : List Char
  hostname : Option (List Char)
  port : Option Nat
  deriving DecidableEq

/-- Model of `urllib.parse.urlparse(url)` restricted to `scheme`,
`hostname` and `port` (eager, see section comment): scheme split at the
first `:` when the prefix is a valid scheme; netloc after `//` up to
`/?#`; user-info stripped at the last `@`; brackets handled as IPv6
hosts (mismatched or non-IPv6 brackets raise `Invalid IPv6 URL`); the
port is the digits after the host's `:`, raising on non-digits or
values above 65535; hostname is lower-cased, `None` when empty. -/
def pyUrlparse (url : List Char) : Except String UrlInfo :=
  -- scheme
  let schemeSplit :=
    match url.findIdx? (· = ':') with
    | some i =>
      if 0 < i ∧ (url.take i).all schemeChar ∧ headAlpha url then
        (strLower (url.take i), url.drop (i + 1))
      else ([], url)
    | Option.none => ([], url)
  let scheme := schemeSplit.1
  let rest := schemeSplit.2
  -- netloc
  let netloc :=
    if ['/', '/'].isPrefixOf rest then
      (rest.drop 2).takeWhile (fun c => c ≠ '/' ∧ c ≠ '?' ∧ c ≠ '#')
    else []
  -- bracket validation (urlsplit raises "Invalid IPv6 URL")
  if (netloc.contains '[' && !(netloc.contains ']')) ||
      (netloc.contains ']' && !(netloc.contains '[')) then
    .error "Invalid IPv6 URL"
  else
    let hostinfo := afterLastCh '@' netloc
    let hostPort : Except String (List Char × List Char) :=
      if hostinfo.contains '[' then
        let bracketed := (hostinfo.dropWhile (· ≠ '[')).drop 1
        let host := bracketed.takeWhile (· ≠ ']')
        let afterBr := (bracketed.dropWhile (· ≠ ']')).drop 1
        if host ≠ [] ∧ host.all (fun c => isHexC c ∨ c = ':' ∨ c = '.') ∧ host.contains ':' then
          .ok (host, afterBr.dropWhile (· ≠ ':') |>.drop 1)
        else .error "Invalid IPv6 URL"
      else
        .ok (hostinfo.takeWhile (· ≠ ':'), (hostinfo.dropWhile (· ≠ ':')).drop 1)
    match hostPort with
    | .error e => .error e
    | .ok (host, portStr) =>
      let portParsed : Except String (Option Nat) :=
        if portStr = [] then .ok Option.none
        else if portStr.all isDigitC then
          if parseVal portStr ≤ 65535 then .ok (some (parseVal portStr))
          else .error "Port out of range 0-65535"
        else .error "Port could not be cast to integer value"
      match portParsed with
      | .error e => .error e
      | .ok port =>
        .ok { scheme := scheme
              hostname := if host = [] then Option.none else some (strLower host)
              port := port }

inductive IpAddr where
  | v4 (a b c d : Nat)
  | v6 (s : List Char)
  deriving DecidableEq

/-- One dotted-quad octet as accepted by CPython `ipaddress` (1–3
digits, no leading zeros, value ≤ 255). -/
def parseOctet (s : List Char) : Option Nat :=
  if s ≠ [] ∧ s.all isDigitC ∧ s.length ≤ 3 ∧
      (1 < s.length → s.head? ≠ some '0') ∧ parseVal s ≤ 255 then
    some (parseVal s)
  else Option.none

def splitOnDot (l : List Char) : List (List Char) :=
  go l []
where
  go : List Char → List Char → List (List Char)
    | [], acc => [acc.reverse]
    | c :: cs, acc => if c = '.' then acc.reverse :: go cs [] else go cs (c :: acc)

/-- Model of `ipaddress.ip_address(host)`; `none` models the
`ValueError` for a host that is not an IP literal (a domain name). -/
def pyIpAddress (host : List Char) : Option IpAddr :=
  match (splitOnDot host).map parseOctet with
  | [some a, some b, some c, some d] => some (.v4 a b c d)
  | _ =>
    if host ≠ [] ∧ host.contains ':' ∧
        host.all (fun c => isHexC c ∨ c = ':' ∨ c = '.') then
      some (.v6 host)
    else Option.none

/-- CPython `ip.is_private` (IPv4 exactly per the stdlib network list;
IPv6 coarsely — only bracketed hosts reach it). -/
def ipIsPrivate : IpAddr → Bool
  | .v4 a b c d =>
    a = 0 ∨ a = 10 ∨ a = 127 ∨ (a = 169 ∧ b = 254) ∨
    (a = 172 ∧ 16 ≤ b ∧ b ≤ 31) ∨ (a = 192 ∧ b = 0 ∧ c = 0 ∧ d ≤ 7) ∨
    (a = 192 ∧ b = 0 ∧ c = 0 ∧ (d = 170 ∨ d = 171)) ∨ (a = 192 ∧ b = 0 ∧ c = 2) ∨
    (a = 192 ∧ b = 168) ∨ (a = 198 ∧ (b = 18 ∨ b = 19)) ∨
    (a = 198 ∧ b = 51 ∧ c = 100) ∨ (a = 203 ∧ b = 0 ∧ c = 113) ∨ 240 ≤ a
  | .v6 s =>
    s = ':' :: ':' :: ['1'] ∨ s = [':', ':'] ∨
    ['f', 'c'].isPrefixOf (strLower s) ∨ ['f', 'd'].isPrefixOf (strLower s) ∨
    ['f', 'e', '8'].isPrefixOf (strLower s)

def ipIsLoopback : IpAddr → Bool
  | .v4 a _ _ _ => a = 127
  | .v6 s => s = ':' :: ':' :: ['1']

def ipIsLinkLocal : IpAddr → Bool
  | .v4 a b _ _ => a = 169 ∧ b = 254
  | .v6 s =>
    ['f', 'e', '8'].isPrefixOf (strLower s) ∨ ['f', 'e', '9'].isPrefixOf (strLower s) ∨
    ['f', 'e', 'a'].isPrefixOf (strLower s) ∨ ['f', 'e', 'b'].isPrefixOf (strLower s)

def ipIsReserved : IpAddr → Bool
  | .v4 a _ _ _ => 240 ≤ a
  | .v6 _ => false

def ipIsMulticast : IpAddr → Bool
  | .v4 a _ _ _ => 224 ≤ a ∧ a ≤ 239
  | .v6 s => ['f', 'f'].isPrefixOf (strLower s)

/-- `PRIVATE_HOSTNAMES` (security.py lines 31–38). -/
def PRIVATE_HOSTNAMES : List (List Char) :=
  ["localhost".data, "localhost.localdomain".data, "127.0.0.1".data,
   "0.0.0.0".data, "::1".data, "[::1]".data]

/-- Body of `validate_url` on a string input (security.py lines 62–132,
the part after the type/truthiness checks). -/
def validateUrlStr (url : List Char) (allow_private : Bool) : Bool :=
  if url.length > 2048 then false
  else
    match pyUrlparse url with
    | .error _ => false
    | .ok info =>
      if info.scheme = [] then false
      else if ¬(strLower info.scheme = "http".data ∨ strLower info.scheme = "https".data) then
        false
      else
        match info.hostname with
        | Option.none => false
        | some hostname =>
          let hl := strLower hostname
          if PRIVATE_HOSTNAMES.contains hl ∧ ¬allow_private then false
          else if (endsWithL ".local".data hl ∨ endsWithL ".internal".data hl ∨
              endsWithL ".lan".data hl ∨ endsWithL ".localhost".data hl) ∧ ¬allow_private then
            false
          else if portBlocked info.port then false
          else
            match pyIpAddress hostname with
            | some ip =>
              if ¬allow_private ∧ (ipIsPrivate ip ∨ ipIsLoopback ip ∨ ipIsLinkLocal ip ∨
                  ipIsReserved ip ∨ ipIsMulticast ip) then
                false
              else true
            | Option.none => true

/-- `validate_url(url, allow_private)` (security.py lines 41–132),
including the `if not url or not isinstance(url, str)` guard. -/
def validate_url (url : PyVal) (allow_private : Bool) : Bool :=
  match url with
  | .pstr s => if s.data = [] then false else validateUrlStr s.data allow_private
  | _ => false

/-- `validate_urls(urls, allow_private)` (security.py lines 135–149). -/
def validate_urls (urls : List String) (allow_private : Bool) : List String :=
  urls.filter (fun u => validate_url (.pstr u) allow_private)

/-! ## The batch scraper (`lutum/scrapers/camoufox_scraper.py`, lines 241–356)

`scrape_urls_batch` truncates its URL list to `MAX_URLS_PER_BATCH`,
filters it through `validate_urls` into `safe_urls`, and navigates
exactly the URLs of `safe_urls`; a successful page becomes an entry of
the result dict.  The browser (`page.goto` + `innerText`) is the
environment: it is modelled by an oracle `page : String → Option String`
(`none` for a navigation failure). -/

def MAX_URLS_PER_BATCH : Nat := 100

def MAX_RESPONSE_SIZE : Nat := 10000000

/-- The URLs `scrape_urls_batch` navigates (`safe_urls` in the source):
the input truncated to 100 and filtered by `validate_urls`. -/
def scrape_urls_batch_navigated (urls : List String) : List String :=
  validate_urls (urls.take MAX_URLS_PER_BATCH) false

/-- `scrape_urls_batch(urls)` given the browser oracle: the result
dict as an association list `url ↦ extracted text`. -/
def scrape_urls_batch (page : String → Option String) (urls : List String) :
    List (String × String) :=
  (scrape_urls_batch_navigated urls).filterMap fun u =>
    match page u with
    | some text =>
      if text ≠ "" ∧ 50 < (pyStrip text.data).length then
        if MAX_RESPONSE_SIZE < text.length then
          some (u, String.mk (text.data.take MAX_RESPONSE_SIZE) ++
            "\n[...TRUNCATED - exceeded size limit...]")
        else some (u, text)
      else Option.none
    | Option.none => Option.none

/-! ## `parse_pick_urls_response` (`lutum/researcher/prompts/pick_urls.py`,
lines 151–186) -/

def MAX_URL_LENGTH : Nat := 2048

/-- Split on every newline (Python `s.split("\n")`). -/
def splitLines (l : List Char) : List (List Char) :=
  go l []
where
  go : List Char → List Char → List (List Char)
    | [], acc => [acc.reverse]
    | c :: cs, acc => if c = '\n' then acc.reverse :: go cs [] else go cs (c :: acc)

/-- One line of the pick-urls reply: keep the URL after `url …:` when it
is short enough, starts with `http`, and passes `validate_url`. -/
def pickLineUrl (line : List Char) : Option String :=
  let l := pyStrip line
  if lowerStartsWith "url".data l then
    match afterFirst ':' l with
    | some rest =>
      let url := pyStrip rest
      if url.length > MAX_URL_LENGTH then Option.none
      else if "http".data.isPrefixOf url ∧ validateUrlStr url false then
        some (String.mk url)
      else Option.none
    | Option.none => Option.none
  else Option.none

/-- `parse_pick_urls_response(response)`: scan the (length-capped)
reply line by line, keep only validated URLs, return at most 20. -/
def parse_pick_urls_response (response : String) : List String :=
  let r := if response.length > 100000 then response.data.take 100000 else response.data
  ((splitLines (pyStrip r)).filterMap pickLineUrl).take 20

/-! ## The Ask-mode scrape path
(`deep_question_pipeline.py`, lines 190–287)

`_search_and_scrape_async` takes, for every query, the first URL of the
search-engine results, caps the collection at 10 URLs, and passes each
of them directly to `_scrape_single_url_async` — the module contains no
call to `validate_url`. -/

structure SearchResult where
  title : String
  url : String
  snippet : String
  deriving DecidableEq

/-- The URLs `_search_and_scrape_async` scrapes, as a function of the
per-query search results: first result of each query, capped at 10,
unvalidated. -/
def askScrapedUrls (searchResults : List (List SearchResult)) : List String :=
  (searchResults.filterMap (fun rs => rs.head?.map (·.url))).take 10

/-! ## Error sanitisation (`lutum/core/security.py`, lines 273–301)

`SENSITIVE_PATTERNS` is a list of five `re.sub` rewrites, applied in
order with `re.IGNORECASE`. Each pattern is modelled by an executable
matcher returning the match length at the current position (Python
semantics: leftmost match, greedy quantifiers with backtracking for the
file-path pattern's extension). -/

/-- The character class `[a-zA-Z0-9_-]`. -/
def keyChar (c : Char) : Bool := isAsciiAlpha c ∨ isDigitC c ∨ c = '_' ∨ c = '-'

/-- The character class `["\s:=]`. -/
def sepChar (c : Char) : Bool := c = '"' ∨ isSpaceC c ∨ c = ':' ∨ c = '='

/-- The character class `[a-zA-Z0-9/_.-]`. -/
def pathChar (c : Char) : Bool :=
  isAsciiAlpha c ∨ isDigitC c ∨ c = '/' ∨ c = '_' ∨ c = '.' ∨ c = '-'

/-- `sk-[a-zA-Z0-9_-]+` at the current position (case-insensitive). -/
def matchSk (l : List Char) : Option Nat :=
  if lowerStartsWith "sk-".data l then
    let run := (l.drop 3).takeWhile keyChar
    if run ≠ [] then some (3 + run.length) else Option.none
  else Option.none

/-- `Bearer\s+[^\s]+` at the current position (case-insensitive). -/
def matchBearer (l : List Char) : Option Nat :=
  if lowerStartsWith "bearer".data l then
    let sp := (l.drop 6).takeWhile isSpaceC
    if sp ≠ [] then
      let w := (l.drop (6 + sp.length)).takeWhile (fun c => ¬isSpaceC c)
      if w ≠ [] then some (6 + sp.length + w.length) else Option.none
    else Option.none
  else Option.none

/-- `token["\s:=]+[a-zA-Z0-9_-]{20,}` at the current position. -/
def matchToken (l : List Char) : Option Nat :=
  if lowerStartsWith "token".data l then
    let sep := (l.drop 5).takeWhile sepChar
    if sep ≠ [] then
      let w := (l.drop (5 + sep.length)).takeWhile keyChar
      if 20 ≤ w.length then some (5 + sep.length + w.length) else Option.none
    else Option.none
  else Option.none

/-- `password["\s:=]+[^\s]+` at the current position. -/
def matchPassword (l : List Char) : Option Nat :=
  if lowerStartsWith "password".data l then
    let sep := (l.drop 8).takeWhile sepChar
    if sep ≠ [] then
      let w := (l.drop (8 + sep.length)).takeWhile (fun c => ¬isSpaceC c)
      if w ≠ [] then some (8 + sep.length + w.length) else Option.none
    else Option.none
  else Option.none

/-- `\.(py|js|ts|json)` at the current position (alternatives in
pattern order, case-insensitive). -/
def matchExt (l : List Char) : Option Nat :=
  match l with
  | '.' :: rest =>
    if lowerStartsWith "py".data rest then some 2
    else if lowerStartsWith "js".data rest then some 2
    else if lowerStartsWith "ts".data rest then some 2
    else if lowerStartsWith "json".data rest then some 4
    else Option.none
  | _ => Option.none

/-- Backtracking for `/[a-zA-Z0-9/_.-]+\.(py|js|ts|json)`: the greedy
`+` is shrunk from the maximal run until `\.ext` matches; returns the
number of characters consumed after the `/`. -/
def pathGo (run : List Char) : Nat → Option Nat
  | 0 => Option.none
  | n + 1 =>
    match matchExt (run.drop (n + 1)) with
    | some el => some (n + 1 + 1 + el)
    | Option.none => pathGo run n

def matchPath (l : List Char) : Option Nat :=
  match l with
  | '/' :: rest =>
    let run := rest.takeWhile pathChar
    match pathGo run run.length with
    | some k => some (1 + k)
    | Option.none => Option.none
  | _ => Option.none

/-- Model of `re.sub(pattern, repl, s)` for a matcher that reports the
(positive) match length at a position: leftmost, non-overlapping scan.
Fuel keeps it structural; `reSub` supplies `length` fuel, enough since
every step consumes at least one character. -/
def reSubAux (matcher : List Char → Option Nat) (repl : List Char) :
    Nat → List Char → List Char
  | 0, l => l
  | _ + 1, [] => []
  | fuel + 1, c :: cs =>
    match matcher (c :: cs) with
    | some n => repl ++ reSubAux matcher repl fuel (cs.drop (n - 1))
    | Option.none => c :: reSubAux matcher repl fuel cs

def reSub (matcher : List Char → Option Nat) (repl : List Char) (l : List Char) : List Char :=
  reSubAux matcher repl l.length l

/-- The five `SENSITIVE_PATTERNS` rewrites in source order. -/
def applySensitivePatterns (l : List Char) : List Char :=
  reSub matchPassword "password=***".data
    (reSub matchPath "[PATH]".data
      (reSub matchToken "token=***".data
        (reSub matchBearer "Bearer ***".data
          (reSub matchSk "sk-***REDACTED***".data l))))

/-- `sanitize_error(error)` (security.py lines 282–301) on the
exception's string: pattern redaction, then truncation to 500
characters. -/
def sanitize_error (error_str : List Char) : List Char :=
  let s := applySensitivePatterns error_str
  if s.length > 500 then s.take 500 ++ "...".data else s

/-! ## The LLM Gateway (`lutum/core/llm_client.py`, lines 28–197)

JSON values decoded from the HTTP response are modelled by `Jsonish`;
the network is modelled by `HttpOutcome` (a non-2xx response whose body
may or may not decode as JSON, a decodable 2xx response, a timeout, or
any other exception). -/

inductive Jsonish where
  | jstr (s : String)
  | jnum (n : Int)
  | jobj (fields : List (String × Jsonish))
  | jarr (elems : List Jsonish)
  | jnull

/-- Python `dict.get(k)` on a decoded JSON object. -/
def jGet (fields : List (String × Jsonish)) (k : String) : Option Jsonish :=
  (fields.find? (fun p => p.1 = k)).map (·.2)

/-- Python truthiness of a decoded JSON value. -/
def jTruthy : Jsonish → Bool
  | .jstr s => s != ""
  | .jnum n => n != 0
  | .jobj f => !f.isEmpty
  | .jarr l => !l.isEmpty
  | .jnull => false

mutual
/-- Python `repr` of a decoded JSON value (dicts and lists render with
their Python syntax; model detail — no claim depends on it). -/
def jsonRepr : Jsonish → String
  | .jstr s => "\x27" ++ s ++ "\x27"
  | .jnum n => String.mk (intRepr n)
  | .jobj fields => "\x7b" ++ jsonReprFields fields ++ "\x7d"
  | .jarr elems => "[" ++ jsonReprElems elems ++ "]"
  | .jnull => "None"

def jsonReprFields : List (String × Jsonish) → String
  | [] => ""
  | [(k, v)] => "\x27" ++ k ++ "\x27: " ++ jsonRepr v
  | (k, v) :: rest => "\x27" ++ k ++ "\x27: " ++ jsonRepr v ++ ", " ++ jsonReprFields rest

def jsonReprElems : List Jsonish → String
  | [] => ""
  | [v] => jsonRepr v
  | v :: rest => jsonRepr v ++ ", " ++ jsonReprElems rest
end

/-- Python `str` of a decoded JSON value. -/
def pyStrOfJson : Jsonish → String
  | .jstr s => s
  | v => jsonRepr v

/-- `x or y or str(z)` chains in `_extract_error_message`: the first
truthy value rendered with `str`, else the fallback string. -/
def firstTruthyStr (vals : List (Option Jsonish)) (fallback : String) : String :=
  match (vals.filterMap fun v =>
      v.bind fun x => if jTruthy x then some x else Option.none).head? with
  | some v => pyStrOfJson v
  | Option.none => fallback

/-- `_extract_error_message(payload, status_code)` (llm_client.py,
lines 28–43). -/
def extract_error_message (payload : Jsonish) (status_code : Option Nat) : String :=
  let message :=
    match payload with
    | .jobj fields =>
      match jGet fields "error" with
      | some err =>
        match err with
        | .jobj ef =>
          firstTruthyStr [jGet ef "message", jGet ef "error"] (pyStrOfJson err)
        | _ => pyStrOfJson err
      | Option.none =>
        firstTruthyStr [jGet fields "message", jGet fields "detail"] (pyStrOfJson payload)
    | _ => pyStrOfJson payload
  match status_code with
  | some sc => "HTTP " ++ String.mk (natRepr sc) ++ ": " ++ message
  | Option.none => message

/-- `_parse_response(result, provider)` (llm_client.py, lines 101–125).
`Except.error` models an uncaught exception (e.g. `IndexError` on an
empty `choices` array), which the caller's `except` turns into an
error result. -/
def parse_response (result : Jsonish) (provider : String) : Except String (Option String) :=
  if provider = "anthropic" then
    match result with
    | .jobj fields =>
      match jGet fields "content" with
      | some (.jarr (first :: _)) =>
        match first with
        | .jobj bf =>
          match jGet bf "text" with
          | some (.jstr s) => .ok (some s)
          | _ => .ok Option.none
        | other => .ok (some (pyStrOfJson other))
      | _ => .ok Option.none
    | _ => .ok Option.none
  else
    match result with
    | .jobj fields =>
      match jGet fields "choices" with
      | Option.none => .ok Option.none
      | some (.jarr (choice :: _)) =>
        match choice with
        | .jobj cf =>
          match jGet cf "message" with
          | some (.jobj mf) =>
            match jGet mf "content" with
            | some (.jstr s) => .ok (some s)
            | _ => .ok Option.none
          | _ => .ok Option.none
        | _ => .error "TypeError"
      | some (.jarr []) => .error "list index out of range"
      | some _ => .error "TypeError"
    | _ => .ok Option.none

structure LLMCallResult where
  content : Option String
  error : Option String
  raw : Option Jsonish

/-- The network-level outcome of the `requests.post` call. -/
inductive HttpOutcome where
  | httpError (status : Nat) (payload : Option Jsonish) (text : String)
  | success (body : Jsonish)
  | timeout
  | exception (msg : String)

/-- `call_chat_completion` (llm_client.py, lines 139–197), as a function
of the provider and the network outcome. The error strings it returns
are built exactly as in the source — `sanitize_error` is never applied
(`llm_client.py` does not import it). -/
def call_chat_completion (provider : String) (outcome : HttpOutcome) : LLMCallResult :=
  match outcome with
  | .httpError status payload text =>
    let p := match payload with
             | some j => j
             | Option.none => .jstr text
    { content := Option.none
      error := some (extract_error_message p (some status))
      raw := Option.none }
  | .success body =>
    match parse_response body provider with
    | .ok content => { content := content, error := Option.none, raw := some body }
    | .error e =>
      { content := Option.none, error := some ("LLM call failed: " ++ e), raw := Option.none }
  | .timeout => { content := Option.none, error := some "LLM timeout", raw := Option.none }
  | .exception e =>
    { content := Option.none, error := some ("LLM call failed: " ++ e), raw := Option.none }

/-! ## Checkpoint writes (`lutum_backend/routes/research.py`, lines 778–796)

```python
def save_checkpoint(session_id: str, data: dict):
    checkpoint_dir = get_checkpoint_dir(session_id)
    checkpoint_dir.mkdir(parents=True, exist_ok=True)
    checkpoint_file = checkpoint_dir / "checkpoint.json"
    checkpoint_file.write_text(json.dumps(data, ...), encoding="utf-8")
```

The file-system effects of one call are modelled as the trace of
operations it performs.  `payload` stands for the serialised
`json.dumps(data, ...)` string. -/

inductive FsOp where
  | mkdirParents (path : List String)
  | writeFile (path : List String) (content : String)
  | rename (src dst : List String)
  deriving DecidableEq

def get_checkpoint_dir (root : List String) (session_id : String) : List String :=
  root ++ [session_id]

def checkpoint_file_path (root : List String) (session_id : String) : List String :=
  get_checkpoint_dir root session_id ++ ["checkpoint.json"]

/-- The file-system trace of `save_checkpoint`: create the directory,
then write `checkpoint.json` in place with a single `write_text`. -/
def save_checkpoint (root : List String) (session_id : String) (payload : String) :
    List FsOp :=
  [.mkdirParents (get_checkpoint_dir root session_id),
   .writeFile (checkpoint_file_path root session_id) payload]

/-- The atomic-write discipline the specification describes for a trace
writing `target`: the snapshot goes to a temporary file first, is
renamed into place, and the target path is never written directly. -/
def AtomicWritePattern (trace : List FsOp) (target : List String) (payload : String) : Prop :=
  (∃ tmp, tmp ≠ target ∧ FsOp.writeFile tmp payload ∈ trace ∧
    FsOp.rename tmp target ∈ trace) ∧
  ∀ c, FsOp.writeFile target c ∉ trace

/-! ## The Worker Loop and resumption
(`lutum_backend/routes/research.py`, lines 798–1339 and 1466–1510)

The loop body (`while remaining_points:`) increments `point_index`,
pops the first remaining point and either appends a dossier to
`completed_dossiers` (appending its key learnings to
`accumulated_learnings` when non-empty) or skips the point, emitting a
`point_complete` event either way.  The network- and LLM-dependent body
of one iteration is the environment; it is modelled by an oracle from
the point index and point text to that iteration's outcome. -/

structure DossierRec where
  point : String
  dossier : String
  sources : List String
  deriving DecidableEq

inductive PointOutcome where
  | skipped (reason : String)
  | completed (d : DossierRec) (key_learnings : Option String)
  deriving DecidableEq

structure LoopState where
  completed_dossiers : List DossierRec
  accumulated_learnings : List String
  point_index : Nat
  point_events : List (Nat × Bool)
  deriving DecidableEq

/-- The Worker Loop over the remaining points: `point_events` records
each emitted `point_complete` as `(point_number, completed?)`. -/
def runPoints (oracle : Nat → String → PointOutcome) :
    List String → LoopState → LoopState
  | [], s => s
  | p :: rest, s =>
    let idx := s.point_index + 1
    match oracle idx p with
    | .skipped _ =>
      runPoints oracle rest
        { s with point_index := idx, point_events := s.point_events ++ [(idx, false)] }
    | .completed d lrn =>
      runPoints oracle rest
        { completed_dossiers := s.completed_dossiers ++ [d]
          accumulated_learnings := s.accumulated_learnings ++ lrn.toList
          point_index := idx
          point_events := s.point_events ++ [(idx, true)] }

/-- The checkpoint document (`checkpoint.json` fields used by
resumption). -/
structure CheckpointRec where
  user_query : String
  research_plan : List String
  completed_dossiers : List DossierRec
  accumulated_learnings : List String
  remaining_points : List String
  deriving DecidableEq

/-- `/research/resume` (lines 1466–1510) composed with the resumed
`research_deep.generate` (lines 811–887): reject an exhausted
checkpoint; otherwise pre-seed `completed_dossiers` and
`accumulated_learnings` from the checkpoint, start `point_index` at
`len(completed_dossiers)`, and run the Worker Loop over exactly
`remaining_points`. -/
def resume_session (oracle : Nat → String → PointOutcome) (ckpt : CheckpointRec) :
    Except String LoopState :=
  if ckpt.remaining_points = [] then
    .error "Keine ausstehenden Punkte - Session ist bereits fertig"
  else
    .ok (runPoints oracle ckpt.remaining_points
      { completed_dossiers := ckpt.completed_dossiers
        accumulated_learnings := ckpt.accumulated_learnings
        point_index := ckpt.completed_dossiers.length
        point_events := [] })

/-- The `total_points` field of the final `done` envelope
(line 1320: `"total_points": len(completed_dossiers)`). -/
def doneCompletedCount (s : LoopState) : Nat := s.completed_dossiers.length

/-! ## The SSE event stream
(`lutum_backend/routes/research.py`, lines 187–215)

```python
while True:
    event = await asyncio.wait_for(queue.get(), timeout=30.0)
    yield ...
    if event["type"] == "done":
        break
```

The envelopes delivered to a subscriber, as a function of the sequence
of events put on the session queue (idle-timeout `ping` envelopes and
blocking on an empty queue are timing behaviour outside the model). -/

structure Ev where
  type : String
  message : String
  deriving DecidableEq

/-- The queued events the generator consumes and yields: everything up
to and including the first `done` envelope. -/
def takeThroughDone : List Ev → List Ev
  | [] => []
  | e :: rest => e :: (if e.type = "done" then [] else takeThroughDone rest)

/-- `event_generator`: the initial `connected` envelope followed by the
consumed queue events. -/
def event_generator (queued : List Ev) : List Ev :=
  { type := "connected", message := "Verbunden" } :: takeThroughDone queued

/-- Modelled from the spec: the delivery the specification describes,
"ending when a `done` or `error` envelope is consumed" — the stream
would stop at the first terminal envelope of either type. -/
def takeThroughTerminalSpec : List Ev → List Ev
  | [] => []
  | e :: rest =>
    e :: (if e.type = "done" ∨ e.type = "error" then [] else takeThroughTerminalSpec rest)

/-! ## `parse_think_response`
(`lutum/researcher/prompts/think.py`, lines 142–192) -/

/-- `re.search(r'[?&]q=([^&]+)', query)`: the group of the leftmost
match — a maximal non-empty run of non-`&` characters after `?q=` or
`&q=`. -/
def qParamGroup : List Char → Option (List Char)
  | [] => Option.none
  | c :: cs =>
    if (c = '?' ∨ c = '&') ∧ "q=".data.isPrefixOf cs ∧ (cs.drop 2).takeWhile (· ≠ '&') ≠ [] then
      some ((cs.drop 2).takeWhile (· ≠ '&'))
    else qParamGroup cs

/-- `re.sub(r'%[0-9A-Fa-f]{2}', ' ', query)`. -/
def percentSub : List Char → List Char
  | [] => []
  | [c] => [c]
  | [c, d] => [c, d]
  | c :: d :: e :: rest =>
    if c = '%' ∧ isHexC d ∧ isHexC e then ' ' :: percentSub rest
    else c :: percentSub (d :: e :: rest)

/-- The keyword extraction applied to a URL-shaped query:
`match.group(1).replace("+", " ").replace("%20", " ")` followed by the
percent-escape cleanup. -/
def qParamCleanup (g : List Char) : List Char :=
  percentSub (replaceAllL "%20".data " ".data (replaceAllL "+".data " ".data g))

/-- Processing of one candidate query line's payload (think.py lines
174–190): URL-shaped queries are converted via their `q=` parameter or
dropped; anything still URL-shaped, `site:`-prefixed, or of length ≤ 3
is dropped. -/
def processThinkQuery (query : List Char) : Option (List Char) :=
  if query = [] then Option.none
  else
    let step1 : Option (List Char) :=
      if "http://".data.isPrefixOf query ∨ "https://".data.isPrefixOf query then
        if isInfixL "q=".data query then
          match qParamGroup query with
          | some g => some (qParamCleanup g)
          | Option.none => some query
        else Option.none
      else some query
    match step1 with
    | Option.none => Option.none
    | some q2 =>
      if isInfixL "://".data q2 ∨ "site:".data.isPrefixOf q2 then Option.none
      else if q2 ≠ [] ∧ 3 < q2.length then some q2
      else Option.none

/-- One line of the `=== SEARCHES ===` block: `search N: query`. -/
def thinkLineQuery (line : List Char) : Option (List Char) :=
  let l := pyStrip line
  if lowerStartsWith "search".data l then
    match afterFirst ':' l with
    | some rest => processThinkQuery (pyStrip rest)
    | Option.none => Option.none
  else Option.none

/-- Characters of `l` before the first occurrence of `sep` (all of `l`
when `sep` does not occur). -/
def takeUntilMarker (sep : List Char) (l : List Char) : List Char :=
  go l l.length
where
  go : List Char → Nat → List Char
    | _, 0 => []
    | [], _ + 1 => []
    | c :: cs, fuel + 1 =>
      if sep.isPrefixOf (c :: cs) then []
      else c :: go cs fuel

/-- Python `s.split(sep)[1]` for a marker string: the text between the
first and second occurrence of `sep` (to the end when `sep` occurs
once), `none` when `sep` does not occur. -/
def afterMarker (sep : List Char) (l : List Char) : Option (List Char) :=
  go l l.length
where
  go : List Char → Nat → Option (List Char)
    | _, 0 => Option.none
    | [], _ + 1 => Option.none
    | c :: cs, fuel + 1 =>
      if sep.isPrefixOf (c :: cs) then
        some (takeUntilMarker sep ((c :: cs).drop sep.length))
      else go cs fuel

/-- `parse_think_response(response).1` and `.2` combined: the searches
list is read from the text after the first `=== SEARCHES ===` marker
(and before a second occurrence, per `split(sep)[1]`), one candidate
per line, capped at 10. -/
def parse_think_response (response : String) : List (List Char) :=
  match afterMarker "=== SEARCHES ===".data response.data with
  | Option.none => []
  | some part =>
    ((splitLines (pyStrip part)).filterMap thinkLineQuery).take 10

/-! ## Theorems -/

theorem natReprAux_stable (fuel₁ fuel₂ n : Nat) (h₁ : n < fuel₁) (h₂ : n < fuel₂) :
    natReprAux fuel₁ n = natReprAux fuel₂ n := by
  induction fuel₁ generalizing fuel₂ n with
  | zero => omega
  | succ f ih =>
    cases fuel₂ with
    | zero => omega
    | succ f₂ =>
      simp only [natReprAux]
      by_cases h : n < 10
      · simp [h]
      · simp only [h, if_false]
        rw [ih f₂ (n / 10) (by omega) (by omega)]

theorem natRepr_eq_aux (fuel n : Nat) (h : n < fuel) : natReprAux fuel n = natRepr n :=
  natReprAux_stable fuel (n + 1) n h (Nat.lt_succ_self n)

theorem natRepr_def (n : Nat) :
    natRepr n = if n < 10 then [digitChar n] else natRepr (n / 10) ++ [digitChar (n % 10)] := by
  unfold natRepr
  rw [natReprAux]
  by_cases h : n < 10
  · simp [h]
  · simp only [h, if_false]
    rw [natRepr_eq_aux n (n / 10) (by omega)]
    rfl

theorem digitChar_isDigit {n : Nat} (h : n < 10) : isDigitC (digitChar n) = true := by
  interval_cases n <;> decide

theorem natRepr_digits (n : Nat) : ∀ c ∈ natRepr n, isDigitC c = true := by
  induction n using Nat.strong_induction_on with
  | _ n ih =>
    rw [natRepr_def]
    by_cases h : n < 10
    · simp only [h, if_true, List.mem_singleton]
      rintro c rfl
      exact digitChar_isDigit h
    · simp only [h, if_false, List.mem_append, List.mem_singleton]
      rintro c (hc | rfl)
      · exact ih (n / 10) (by omega) c hc
      · exact digitChar_isDigit (Nat.mod_lt _ (by omega))

theorem natRepr_ne_nil (n : Nat) : natRepr n ≠ [] := by
  rw [natRepr_def]
  by_cases h : n < 10 <;> simp [h]

theorem parseVal_append (xs : List Char) (c : Char) :
    parseVal (xs ++ [c]) = 10 * parseVal xs + (c.toNat - 48) := by
  simp [parseVal, List.foldl_append]

theorem digitChar_toNat {n : Nat} (h : n < 10) : (digitChar n).toNat = 48 + n := by
  interval_cases n <;> decide

theorem parseVal_natRepr (n : Nat) : parseVal (natRepr n) = n := by
  induction n using Nat.strong_induction_on with
  | _ n ih =>
    rw [natRepr_def]
    by_cases h : n < 10
    · simp only [h, if_true]
      show parseVal ([] ++ [digitChar n]) = n
      rw [parseVal_append, digitChar_toNat h]
      simp [parseVal]
    · simp only [h, if_false]
      rw [parseVal_append, ih (n / 10) (by omega), digitChar_toNat (Nat.mod_lt _ (by omega))]
      omega

theorem natRepr_injective {m n : Nat} (h : natRepr m = natRepr n) : m = n := by
  have := parseVal_natRepr m
  rw [h, parseVal_natRepr] at this
  omega

theorem takeDigits_append (l : List Char) :
    (takeDigits l).1 ++ (takeDigits l).2 = l := by
  induction l with
  | nil => rfl
  | cons c cs ih =>
    simp only [takeDigits]
    by_cases h : isDigitC c <;> simp [h, ih]

theorem takeDigits_digits (l : List Char) : ∀ c ∈ (takeDigits l).1, isDigitC c = true := by
  induction l with
  | nil => simp [takeDigits]
  | cons c cs ih =>
    simp only [takeDigits]
    by_cases h : isDigitC c
    · simp only [h, if_true, List.mem_cons]
      rintro x (rfl | hx)
      · exact h
      · exact ih x hx
    · simp [h]

theorem takeDigits_rest_head (l : List Char) :
    ∀ c cs, (takeDigits l).2 = c :: cs → isDigitC c = false := by
  induction l with
  | nil => simp [takeDigits]
  | cons x xs ih =>
    simp only [takeDigits]
    by_cases h : isDigitC x
    · simpa [h] using ih
    · simp only [h, if_false]
      rintro c cs hc
      cases hc
      simpa using h

theorem takeDigits_of_digits (d : List Char) (rest : List Char)
    (hd : ∀ c ∈ d, isDigitC c = true)
    (hr : ∀ c cs, rest = c :: cs → isDigitC c = false) :
    takeDigits (d ++ rest) = (d, rest) := by
  induction d with
  | nil =>
    cases rest with
    | nil => rfl
    | cons c cs =>
      have := hr c cs rfl
      simp [takeDigits, this]
  | cons c d ih =>
    have hc : isDigitC c = true := hd c (by simp)
    have ih' := ih (fun x hx => hd x (by simp [hx]))
    simp only [List.cons_append, takeDigits, hc, if_true]
    simp [ih']

theorem tokAux_not_lbrack {c : Char} (cs : List Char) (h : c ≠ '[') :
    tokAux (c :: cs) none = Seg.lit c :: tokAux cs none := by
  simp [tokAux, h]

/-- Inside a candidate token `[acc…`: the scanner recognises a token
exactly when a (possibly empty) digit run extending `acc` to a
non-empty group is followed by `]`; otherwise the `[` and the digit run
become literals and the scan resumes on the remainder. -/
theorem tokAux_some (cs : List Char) : ∀ acc : List Char,
    tokAux cs (some acc) =
      if (takeDigits cs).2.head? = some ']' ∧ acc ++ (takeDigits cs).1 ≠ [] then
        Seg.tok (acc ++ (takeDigits cs).1) :: tokAux (takeDigits cs).2.tail none
      else
        (Seg.lit '[' :: (acc ++ (takeDigits cs).1).map Seg.lit) ++ tokAux (takeDigits cs).2 none := by
  induction cs with
  | nil => intro acc; simp [tokAux, takeDigits]
  | cons c cs ih =>
    intro acc
    by_cases hbr : c = '['
    · subst hbr
      have hd : isDigitC '[' = false := by decide
      simp only [takeDigits, hd, Bool.false_eq_true, if_false, List.head?_cons,
        List.append_nil]
      have hcond : ¬((some '[' = some ']') ∧ acc ≠ []) := by
        rintro ⟨h, -⟩; cases h
      rw [if_neg hcond]
      show tokAux ('[' :: cs) (some acc) =
        Seg.lit '[' :: acc.map Seg.lit ++ tokAux ('[' :: cs) none
      have h1 : tokAux ('[' :: cs) (some acc) =
          (Seg.lit '[' :: acc.map Seg.lit) ++ tokAux cs (some []) := by
        simp [tokAux]
      have h2 : tokAux ('[' :: cs) none = tokAux cs (some []) := by
        simp [tokAux]
      rw [h1, h2]
    · by_cases hdig : isDigitC c
      · have h1 : tokAux (c :: cs) (some acc) = tokAux cs (some (acc ++ [c])) := by
          simp [tokAux, hbr, hdig]
        rw [h1, ih (acc ++ [c])]
        simp only [takeDigits, hdig, if_true, List.append_assoc, List.singleton_append]
      · by_cases hrb : c = ']'
        · subst hrb
          have hd : isDigitC ']' = false := by decide
          by_cases hacc : acc = []
          · subst hacc
            have hbr2 : ((']' : Char) = '[') = False := by decide
            simp [takeDigits, hd, tokAux, hbr2]
          · have hbr2 : ((']' : Char) = '[') = False := by decide
            simp [takeDigits, hd, tokAux, hbr2, hacc]
        · have hd : isDigitC c = false := by simpa using hdig
          simp only [takeDigits, hd, Bool.false_eq_true, if_false, List.head?_cons,
            List.append_nil]
          have hcond : ¬((some c = some ']') ∧ acc ≠ []) := by
            rintro ⟨h, -⟩
            exact hrb (by injection h)
          rw [if_neg hcond]
          show tokAux (c :: cs) (some acc) =
            Seg.lit '[' :: acc.map Seg.lit ++ tokAux (c :: cs) none
          have h1 : tokAux (c :: cs) (some acc) =
              (Seg.lit '[' :: acc.map Seg.lit) ++ (Seg.lit c :: tokAux cs none) := by
            have hne : ¬(c = ']' ∧ acc ≠ []) := fun h => hrb h.1
            simp [tokAux, hbr, hdig, hne]
          rw [h1, tokAux_not_lbrack cs hbr]

theorem tokenize_nil : tokenize [] = [] := rfl

theorem tokenize_cons {c : Char} (cs : List Char) (h : c ≠ '[') :
    tokenize (c :: cs) = Seg.lit c :: tokenize cs := tokAux_not_lbrack cs h

theorem tokenize_lbrack (cs : List Char) :
    tokenize ('[' :: cs) =
      if (takeDigits cs).2.head? = some ']' ∧ (takeDigits cs).1 ≠ [] then
        Seg.tok (takeDigits cs).1 :: tokenize (takeDigits cs).2.tail
      else
        (Seg.lit '[' :: (takeDigits cs).1.map Seg.lit) ++ tokenize (takeDigits cs).2 := by
  have h0 : tokenize ('[' :: cs) = tokAux cs (some []) := by simp [tokenize, tokAux]
  rw [h0, tokAux_some cs []]
  simp [tokenize]

theorem segApply_lit (F : List Char → List Char) (c : Char) :
    segApply F (Seg.lit c) = Seg.lit c := rfl

theorem map_segApply_lits (F : List Char → List Char) (d : List Char) :
    (d.map Seg.lit).map (segApply F) = d.map Seg.lit := by
  induction d with
  | nil => rfl
  | cons c d ih => simp [segApply, ih]

theorem render_nil : render [] = [] := rfl

theorem render_cons_lit (c : Char) (segs : List Seg) :
    render (Seg.lit c :: segs) = c :: render segs := by
  simp [render]

theorem render_cons_tok (d : List Char) (segs : List Seg) :
    render (Seg.tok d :: segs) = '[' :: (d ++ ']' :: render segs) := by
  simp [render]

theorem render_lits (d : List Char) (segs : List Seg) :
    render (d.map Seg.lit ++ segs) = d ++ render segs := by
  induction d with
  | nil => simp
  | cons c cs ih => simp [render_cons_lit, ih]

theorem render_head (F : List Char → List Char) (x : Char) (xs : List Char) :
    (render ((tokenize (x :: xs)).map (segApply F))).head? =
      some (if x = '[' then '[' else x) := by
  by_cases h : x = '['
  · subst h
    rw [tokenize_lbrack]
    by_cases hc : (takeDigits xs).2.head? = some ']' ∧ (takeDigits xs).1 ≠ []
    · rw [if_pos hc]
      simp [render, segApply]
    · rw [if_neg hc]
      simp [render, segApply]
  · rw [tokenize_cons xs h]
    simp [render, segApply, h]

/-- Re-scanning after an admissible substitution reproduces the
substituted token split: replacing each token's digit group by another
non-empty digit group does not change where the scanner finds tokens. -/
theorem tokenize_render_map (F : List Char → List Char) (hF : AdmissibleSub F) :
    ∀ l : List Char,
      tokenize (render ((tokenize l).map (segApply F))) = (tokenize l).map (segApply F) := by
  suffices H : ∀ (n : Nat) (l : List Char), l.length = n →
      tokenize (render ((tokenize l).map (segApply F))) = (tokenize l).map (segApply F) by
    exact fun l => H l.length l rfl
  intro n
  induction n using Nat.strong_induction_on with
  | _ n ih =>
    intro l hn
    match l with
    | [] => simp [tokenize_nil, render]
    | c :: cs =>
      by_cases hbr : c = '['
      · subst hbr
        rcases htd : takeDigits cs with ⟨d, rest⟩
        have hsplit : d ++ rest = cs := by
          have := takeDigits_append cs
          rw [htd] at this
          exact this
        have hddig : ∀ x ∈ d, isDigitC x = true := by
          intro x hx
          have := takeDigits_digits cs
          rw [htd] at this
          exact this x hx
        rw [tokenize_lbrack, htd]
        by_cases hc : rest.head? = some ']' ∧ d ≠ []
        · rw [if_pos hc]
          obtain ⟨hhead, hdne⟩ := hc
          obtain ⟨r, hr⟩ : ∃ r, rest = ']' :: r := by
            cases rest with
            | nil => simp at hhead
            | cons y ys => exact ⟨ys, by injection hhead with h; rw [h]⟩
          subst hr
          obtain ⟨hFne, hFdig⟩ := hF d hdne hddig
          have hrlen : r.length < (('[' :: cs) : List Char).length := by
            have hlen : cs.length = d.length + (r.length + 1) := by
              rw [← hsplit]; simp
            simp only [List.length_cons, hlen]
            omega
          have ihr := ih r.length (hn ▸ hrlen) r rfl
          simp only [List.tail_cons, List.map_cons, segApply]
          rw [render_cons_tok, tokenize_lbrack]
          have htd2 : takeDigits (F d ++ ']' :: render ((tokenize r).map (segApply F))) =
              (F d, ']' :: render ((tokenize r).map (segApply F))) := by
            apply takeDigits_of_digits _ _ hFdig
            rintro x xs hx
            injection hx with h1 h2
            subst h1
            decide
          rw [htd2]
          rw [if_pos ⟨rfl, hFne⟩]
          simp only [List.tail_cons]
          rw [ihr]
        · rw [if_neg hc]
          -- failure case: the bracket and digits become literals
          have hrest_head : ∀ x xs, rest = x :: xs → isDigitC x = false := by
            intro x xs hx
            have := takeDigits_rest_head cs
            rw [htd] at this
            exact this x xs hx
          have hrlen : rest.length < (('[' :: cs) : List Char).length := by
            have hlen : cs.length = d.length + rest.length := by
              rw [← hsplit]; simp
            simp only [List.length_cons, hlen]
            omega
          have ihr := ih rest.length (hn ▸ hrlen) rest rfl
          simp only [List.map_append, List.map_cons, segApply, map_segApply_lits]
          have hrend : render ((Seg.lit '[' :: d.map Seg.lit) ++
              (tokenize rest).map (segApply F)) =
              '[' :: (d ++ render ((tokenize rest).map (segApply F))) := by
            rw [List.cons_append, render_cons_lit, render_lits]
          rw [hrend, tokenize_lbrack]
          set Y := render ((tokenize rest).map (segApply F)) with hY
          have htd3 : takeDigits (d ++ Y) = (d, Y) := by
            apply takeDigits_of_digits _ _ hddig
            intro x xs hx
            cases hrest : rest with
            | nil =>
              rw [hrest] at hY
              simp [tokenize_nil, render] at hY
              rw [hY] at hx
              exact absurd hx (by simp)
            | cons y ys =>
              have hhy : Y.head? = some (if y = '[' then '[' else y) := by
                rw [hY, hrest]
                exact render_head F y ys
              rw [hx] at hhy
              simp only [List.head?_cons, Option.some.injEq] at hhy
              subst hhy
              by_cases hyy : y = '['
              · rw [hyy]
                decide
              · simp only [hyy, if_false]
                exact hrest_head y ys hrest
          rw [htd3]
          have hcond2 : ¬(Y.head? = some ']' ∧ d ≠ []) := by
            rintro ⟨hh, hdne⟩
            apply hc
            cases hrest : rest with
            | nil =>
              rw [hrest] at hY
              simp [tokenize_nil, render] at hY
              rw [hY] at hh
              simp at hh
            | cons y ys =>
              have hhy : Y.head? = some (if y = '[' then '[' else y) := by
                rw [hY, hrest]
                exact render_head F y ys
              rw [hh] at hhy
              by_cases hyy : y = '['
              · simp [hyy] at hhy
              · simp only [hyy, if_false, Option.some.injEq] at hhy
                refine ⟨?_, hdne⟩
                subst hhy
                rfl
          rw [if_neg hcond2, ihr]
      · have hlen : cs.length < ((c :: cs) : List Char).length := by simp
        have ihc := ih cs.length (hn ▸ hlen) cs rfl
        rw [tokenize_cons cs hbr]
        simp only [List.map_cons, segApply]
        rw [render_cons_lit, tokenize_cons _ hbr, ihc]

theorem extractCits_map (F : List Char → List Char) (hF : AdmissibleSub F) (l : List Char) :
    extractCits (render ((tokenize l).map (segApply F))) = (extractCits l).map F := by
  unfold extractCits
  rw [tokenize_render_map F hF l, List.filterMap_map, List.map_filterMap]
  congr 1
  funext s
  cases s <;> rfl

theorem citSub_admissible (n : Nat) (g : Int) (hg : 0 ≤ g) :
    AdmissibleSub (citSub n g) := by
  intro d hne hdig
  unfold citSub
  by_cases h : d = natRepr n
  · rw [if_pos h]
    have : intRepr g = natRepr g.toNat := by
      unfold intRepr
      rw [if_neg (by omega)]
    rw [this]
    exact ⟨natRepr_ne_nil _, natRepr_digits _⟩
  · rw [if_neg h]
    exact ⟨hne, hdig⟩

theorem tokenize_replCit (n : Nat) (g : Int) (hg : 0 ≤ g) (l : List Char) :
    tokenize (replCit n g l) = (tokenize l).map (segApply (citSub n g)) := by
  unfold replCit
  exact tokenize_render_map _ (citSub_admissible n g hg) l

theorem extractCits_replCit (n : Nat) (g : Int) (hg : 0 ≤ g) (l : List Char) :
    extractCits (replCit n g l) = (extractCits l).map (citSub n g) := by
  unfold replCit
  exact extractCits_map _ (citSub_admissible n g hg) l

theorem extractCits_replCitFold (toGlob : Nat → Int) (steps : List Nat)
    (hg : ∀ m ∈ steps, 0 ≤ toGlob m) (l : List Char) :
    extractCits (replCitFold toGlob steps l) = (extractCits l).map (citSubFold toGlob steps) := by
  induction steps generalizing l with
  | nil =>
    simp only [replCitFold, citSubFold, List.foldl_nil]
    exact (List.map_id _).symm
  | cons m steps ih =>
    have hm : 0 ≤ toGlob m := hg m (by simp)
    have hrest : ∀ k ∈ steps, 0 ≤ toGlob k := fun k hk => hg k (by simp [hk])
    show extractCits (replCitFold toGlob steps (replCit m (toGlob m) l)) = _
    rw [ih hrest, extractCits_replCit m (toGlob m) hm]
    rw [List.map_map]
    rfl

theorem renumLoop_ok_text (local_urls : List String) (toGlob : Nat → Int)
    (steps : List Nat) :
    ∀ t reg t' reg', renumLoop local_urls toGlob steps (t, reg) = .ok (t', reg') →
      t' = replCitFold toGlob steps t := by
  induction steps with
  | nil =>
    intro t reg t' reg' h
    simp only [renumLoop, Except.ok.injEq, Prod.mk.injEq] at h
    rw [← h.1]
    rfl
  | cons m rest ih =>
    intro t reg t' reg' h
    simp only [renumLoop] at h
    by_cases hc : ((m : Int) - 1) < (local_urls.length : Int)
    · rw [if_pos hc] at h
      cases hp : pyIndex local_urls ((m : Int) - 1) with
      | some u =>
        rw [hp] at h
        have := ih _ _ _ _ h
        simpa [replCitFold] using this
      | none => rw [hp] at h; cases h
    · rw [if_neg hc] at h
      have := ih _ _ _ _ h
      simpa [replCitFold] using this

theorem find?_filter_ne (k j : Int) (h : k ≠ j) (l : List (Int × String)) :
    (l.filter (fun p => p.1 ≠ k)).find? (fun p => p.1 = j) = l.find? (fun p => p.1 = j) := by
  induction l with
  | nil => rfl
  | cons p l ih =>
    rw [List.filter_cons]
    by_cases hp : p.1 = k
    · have h1 : decide (p.1 ≠ k) = false := by simp [hp]
      have h2 : decide (p.1 = j) = false := by
        apply decide_eq_false
        rw [hp]
        exact h
      rw [h1]
      simp only [Bool.false_eq_true, if_false]
      rw [ih, List.find?_cons, h2]
    · have h1 : decide (p.1 ≠ k) = true := by simp [hp]
      rw [h1]
      simp only [if_true]
      by_cases hj : p.1 = j
      · have h2 : decide (p.1 = j) = true := by simp [hj]
        rw [List.find?_cons, h2, List.find?_cons, h2]
      · have h2 : decide (p.1 = j) = false := by simp [hj]
        rw [List.find?_cons, h2, List.find?_cons, h2]
        exact ih

theorem regGet_regSet_ne (reg : Registry) (k j : Int) (v : String) (h : k ≠ j) :
    regGet (regSet reg k v) j = regGet reg j := by
  unfold regGet regSet
  rw [List.find?_cons]
  have hkj : (decide ((k, v).1 = j)) = false := by simp [h]
  rw [hkj]
  rw [find?_filter_ne k j h reg]

theorem regGet_regSet_self (reg : Registry) (k : Int) (v : String) :
    regGet (regSet reg k v) k = some v := by
  unfold regGet regSet
  simp [List.find?_cons]

theorem mem_regSet (reg : Registry) (k : Int) (v : String) (p : Int × String)
    (h : p ∈ regSet reg k v) : p = (k, v) ∨ p ∈ (reg : List (Int × String)) := by
  unfold regSet at h
  rcases List.mem_cons.mp h with h1 | h1
  · exact Or.inl h1
  · exact Or.inr (List.mem_of_mem_filter h1)

theorem renumLoop_ok_get (local_urls : List String) (toGlob : Nat → Int)
    (steps : List Nat) (j : Int) (hj : ∀ m ∈ steps, toGlob m ≠ j) :
    ∀ t reg t' reg', renumLoop local_urls toGlob steps (t, reg) = .ok (t', reg') →
      regGet reg' j = regGet reg j := by
  induction steps with
  | nil =>
    intro t reg t' reg' h
    simp only [renumLoop, Except.ok.injEq, Prod.mk.injEq] at h
    rw [← h.2]
  | cons m rest ih =>
    intro t reg t' reg' h
    have hm : toGlob m ≠ j := hj m (by simp)
    have hrest : ∀ k ∈ rest, toGlob k ≠ j := fun k hk => hj k (by simp [hk])
    simp only [renumLoop] at h
    by_cases hc : ((m : Int) - 1) < (local_urls.length : Int)
    · rw [if_pos hc] at h
      cases hp : pyIndex local_urls ((m : Int) - 1) with
      | some u =>
        rw [hp] at h
        rw [ih hrest _ _ _ _ h]
        exact regGet_regSet_ne _ _ _ _ hm
      | none => rw [hp] at h; cases h
    · rw [if_neg hc] at h
      exact ih hrest _ _ _ _ h

theorem pyIndex_mem (l : List String) (i : Int) (u : String) (h : pyIndex l i = some u) :
    u ∈ l := by
  unfold pyIndex at h
  by_cases h0 : 0 ≤ i
  · rw [if_pos h0] at h
    exact List.get?_mem h
  · rw [if_neg h0] at h
    by_cases h1 : (-i).toNat ≤ l.length
    · rw [if_pos h1] at h
      exact List.get?_mem h
    · rw [if_neg h1] at h
      cases h

theorem renumLoop_ok_values (local_urls : List String) (toGlob : Nat → Int)
    (steps : List Nat) :
    ∀ t reg t' reg', renumLoop local_urls toGlob steps (t, reg) = .ok (t', reg') →
      ∀ p, p ∈ (reg' : List (Int × String)) →
        p ∈ (reg : List (Int × String)) ∨ p.2 ∈ local_urls := by
  induction steps with
  | nil =>
    intro t reg t' reg' h p hp
    simp only [renumLoop, Except.ok.injEq, Prod.mk.injEq] at h
    rw [← h.2] at hp
    exact Or.inl hp
  | cons m rest ih =>
    intro t reg t' reg' h p hp
    simp only [renumLoop] at h
    by_cases hc : ((m : Int) - 1) < (local_urls.length : Int)
    · rw [if_pos hc] at h
      cases hu : pyIndex local_urls ((m : Int) - 1) with
      | some u =>
        rw [hu] at h
        rcases ih _ _ _ _ h p hp with hmem | hmem
        · rcases mem_regSet _ _ _ _ hmem with rfl | hmem2
          · exact Or.inr (pyIndex_mem _ _ _ hu)
          · exact Or.inl hmem2
        · exact Or.inr hmem
      | none => rw [hu] at h; cases h
    · rw [if_neg hc] at h
      exact ih _ _ _ _ h p hp

/-! ### Properties of `sortedLocals` -/

theorem sortedLocals_sorted (text : List Char) :
    (sortedLocals text).Sorted (· ≤ ·) :=
  List.sorted_insertionSort _ _

theorem sortedLocals_nodup (text : List Char) : (sortedLocals text).Nodup := by
  unfold sortedLocals
  exact (List.perm_insertionSort _ _).nodup_iff.mpr (List.nodup_dedup _)

theorem mem_sortedLocals (text : List Char) (v : Nat) :
    v ∈ sortedLocals text ↔ v ∈ (extractCits text).map parseVal := by
  unfold sortedLocals
  rw [(List.perm_insertionSort _ _).mem_iff, List.mem_dedup]

theorem sortedLocals_pairwise_lt (text : List Char) :
    (sortedLocals text).Pairwise (· < ·) := by
  have h1 := sortedLocals_sorted text
  have h2 := sortedLocals_nodup text
  have := List.Pairwise.and h1 h2
  exact this.imp (fun h => lt_of_le_of_ne h.1 h.2)

theorem sortedLocals_reverse_pairwise (text : List Char) :
    (sortedLocals text).reverse.Pairwise (· > ·) := by
  rw [List.pairwise_reverse]
  exact sortedLocals_pairwise_lt text

/-! ### The descending substitution order is collision-free when every
local number is at most its assigned global number -/

theorem citSubFold_fix (toGlob : Nat → Int) (steps : List Nat) (d : List Char)
    (h : ∀ m ∈ steps, d ≠ natRepr m) :
    citSubFold toGlob steps d = d := by
  induction steps with
  | nil => rfl
  | cons m rest ih =>
    show citSubFold toGlob rest (citSub m (toGlob m) d) = d
    rw [citSub, if_neg (h m (by simp))]
    exact ih (fun k hk => h k (by simp [hk]))

theorem intRepr_nonneg (g : Int) (hg : 0 ≤ g) : intRepr g = natRepr g.toNat := by
  unfold intRepr
  rw [if_neg (by omega)]

theorem citSubFold_desc_value (toGlob : Nat → Int) (steps : List Nat)
    (hdesc : steps.Pairwise (· > ·))
    (hle : ∀ m ∈ steps, (m : Int) ≤ toGlob m)
    (v : Nat) (hv : v ∈ steps) :
    citSubFold toGlob steps (natRepr v) = intRepr (toGlob v) := by
  induction steps with
  | nil => cases hv
  | cons m rest ih =>
    show citSubFold toGlob rest (citSub m (toGlob m) (natRepr v)) = _
    by_cases hvm : v = m
    · subst hvm
      rw [citSub, if_pos rfl]
      have hg : 0 ≤ toGlob v := le_trans (by omega) (hle v (by simp))
      rw [intRepr_nonneg _ hg]
      apply citSubFold_fix
      intro k hk hcontra
      have hkv : k < v := (List.pairwise_cons.mp hdesc).1 k hk
      have : (toGlob v).toNat = k := natRepr_injective hcontra
      have hvle : (v : Int) ≤ toGlob v := hle v (by simp)
      omega
    · rw [citSub, if_neg (fun hc => hvm (natRepr_injective hc))]
      have hv' : v ∈ rest := by
        rcases List.mem_cons.mp hv with h | h
        · exact absurd h hvm
        · exact h
      exact ih (List.pairwise_cons.mp hdesc).2 (fun k hk => hle k (by simp [hk])) hv'

theorem localToGlobal_nonneg (text : List Char) (start : Int) (hstart : 1 ≤ start)
    (m : Nat) : 0 ≤ localToGlobal text start m := by
  unfold localToGlobal
  have : (0 : Int) ≤ ((sortedLocals text).indexOf m : Int) := by positivity
  omega

/-- The text component of a successful `renumber_citations` call is the
descending substitution fold, and the returned counter is
`start_num + |locals|`. -/
theorem renumber_citations_ok (reg : Registry) (text : List Char)
    (local_urls : List String) (start_num : Int)
    (t' : List Char) (c' : Int) (reg' : Registry)
    (hok : renumber_citations reg text local_urls start_num = .ok (t', c', reg')) :
    t' = replCitFold (localToGlobal text start_num) (sortedLocals text).reverse text ∧
      c' = start_num + (sortedLocals text).length ∧
      renumLoop local_urls (localToGlobal text start_num) (sortedLocals text).reverse
        (text, reg) = .ok (t', reg') := by
  unfold renumber_citations at hok
  cases hloop : renumLoop local_urls (localToGlobal text start_num)
      (sortedLocals text).reverse (text, reg) with
  | error e =>
    rw [hloop] at hok
    cases hok
  | ok s =>
    rw [hloop] at hok
    simp only [Except.map, Except.ok.injEq, Prod.mk.injEq] at hok
    obtain ⟨h1, h2, h3⟩ := hok
    refine ⟨?_, h2.symm, ?_⟩
    · rw [← h1]
      have hs : renumLoop local_urls (localToGlobal text start_num)
          (sortedLocals text).reverse (text, reg) = .ok (s.1, s.2) := by
        rw [hloop]
      exact renumLoop_ok_text _ _ _ _ _ _ _ hs
    · rw [← h1, ← h3]

/-- Helper for the collision-freedom claim: under the stated side
conditions, the citation-token sequence of the rewritten text is the
pointwise image of the input's token sequence under the assigned
local-to-global mapping. -/
theorem renumber_extract (reg : Registry) (text : List Char)
    (local_urls : List String) (start_num : Int)
    (t' : List Char) (c' : Int) (reg' : Registry)
    (hok : renumber_citations reg text local_urls start_num = .ok (t', c', reg'))
    (hstart : 1 ≤ start_num)
    (hle : ∀ m ∈ sortedLocals text, (m : Int) ≤ localToGlobal text start_num m)
    (hcanon : ∀ d ∈ extractCits text, d = natRepr (parseVal d)) :
    extractCits t' =
      (extractCits text).map (fun d => intRepr (localToGlobal text start_num (parseVal d))) := by
  obtain ⟨ht, -, -⟩ := renumber_citations_ok reg text local_urls start_num t' c' reg' hok
  rw [ht]
  rw [extractCits_replCitFold (localToGlobal text start_num) (sortedLocals text).reverse
    (fun m _ => localToGlobal_nonneg text start_num hstart m) text]
  apply List.map_congr_left
  intro d hd
  have hdval : parseVal d ∈ sortedLocals text :=
    (mem_sortedLocals text (parseVal d)).mpr (List.mem_map_of_mem parseVal hd)
  conv_lhs => rw [hcanon d hd]
  exact citSubFold_desc_value (localToGlobal text start_num) (sortedLocals text).reverse
    (sortedLocals_reverse_pairwise text)
    (fun m hm => hle m (List.mem_reverse.mp hm))
    (parseVal d) (List.mem_reverse.mpr hdval)

/-! ## Helper lemmas for the Worker Loop, event stream and parsers -/

theorem runPoints_all_completed (oracle : Nat → String → PointOutcome) (pts : List String)
    (hsucc : ∀ i p, p ∈ pts → ∃ d lrn, oracle i p = .completed d lrn) :
    ∀ s : LoopState,
      ∃ newds newevs,
        (runPoints oracle pts s).completed_dossiers = s.completed_dossiers ++ newds ∧
        newds.length = pts.length ∧
        (runPoints oracle pts s).point_events = s.point_events ++ newevs ∧
        newevs.map Prod.fst = List.range' (s.point_index + 1) pts.length ∧
        (∀ e ∈ newevs, e.2 = true) ∧
        (runPoints oracle pts s).point_index = s.point_index + pts.length := by
  induction pts with
  | nil =>
    intro s
    exact ⟨[], [], by simp [runPoints], by simp, by simp [runPoints],
      by simp [List.range'], by simp, by simp [runPoints]⟩
  | cons p rest ih =>
    intro s
    obtain ⟨d, lrn, hd⟩ := hsucc (s.point_index + 1) p (by simp)
    have hrest : ∀ i q, q ∈ rest → ∃ d lrn, oracle i q = .completed d lrn :=
      fun i q hq => hsucc i q (by simp [hq])
    have hstep : runPoints oracle (p :: rest) s =
        runPoints oracle rest
          { completed_dossiers := s.completed_dossiers ++ [d]
            accumulated_learnings := s.accumulated_learnings ++ lrn.toList
            point_index := s.point_index + 1
            point_events := s.point_events ++ [(s.point_index + 1, true)] } := by
      show (match oracle (s.point_index + 1) p with
        | .skipped _ => runPoints oracle rest _
        | .completed d lrn => runPoints oracle rest _) = _
      rw [hd]
    obtain ⟨newds, newevs, h1, h2, h3, h4, h5, h6⟩ :=
      (ih hrest) { completed_dossiers := s.completed_dossiers ++ [d]
                   accumulated_learnings := s.accumulated_learnings ++ lrn.toList
                   point_index := s.point_index + 1
                   point_events := s.point_events ++ [(s.point_index + 1, true)] }
    refine ⟨d :: newds, (s.point_index + 1, true) :: newevs, ?_, ?_, ?_, ?_, ?_, ?_⟩
    · rw [hstep, h1]
      simp
    · simp [h2]
    · rw [hstep, h3]
      simp
    · simp only [List.map_cons, h4, List.length_cons, List.range'_succ]
    · intro e he
      rcases List.mem_cons.mp he with rfl | he2
      · rfl
      · exact h5 e he2
    · rw [hstep, h6]
      simp
      omega

theorem takeThroughDone_append (pre : List Ev) (d : Ev) (post : List Ev)
    (hd : d.type = "done") (hpre : ∀ e ∈ pre, e.type ≠ "done") :
    takeThroughDone (pre ++ d :: post) = pre ++ [d] := by
  induction pre with
  | nil => simp [takeThroughDone, hd]
  | cons e pre ih =>
    have he : e.type ≠ "done" := hpre e (by simp)
    show takeThroughDone (e :: (pre ++ d :: post)) = e :: (pre ++ [d])
    unfold takeThroughDone
    rw [if_neg he]
    exact congrArg (e :: ·) (ih (fun x hx => hpre x (by simp [hx])))

theorem isInfixL_of_isPrefixOf (s l : List Char) (h : s.isPrefixOf l = true) :
    isInfixL s l = true := by
  cases l with
  | nil => simpa [isInfixL] using h
  | cons c cs => simp [isInfixL, h]

theorem isInfixL_of_append_isPrefixOf (a s l : List Char)
    (h : (a ++ s).isPrefixOf l = true) : isInfixL s l = true := by
  induction a generalizing l with
  | nil => exact isInfixL_of_isPrefixOf s l (by simpa using h)
  | cons c a ih =>
    cases l with
    | nil => simp [List.isPrefixOf] at h
    | cons x xs =>
      simp only [List.cons_append, List.isPrefixOf, Bool.and_eq_true] at h
      have := ih xs h.2
      simp [isInfixL, this]

/-- Every query that survives `processThinkQuery` satisfies the three
guards re-checked at the end of the loop body. -/
theorem processThinkQuery_guards (query q : List Char)
    (h : processThinkQuery query = some q) :
    3 < q.length ∧ isInfixL "://".data q = false ∧ "site:".data.isPrefixOf q = false := by
  unfold processThinkQuery at h
  by_cases h0 : query = []
  · rw [if_pos h0] at h
    cases h
  · rw [if_neg h0] at h
    set step1 : Option (List Char) :=
      (if "http://".data.isPrefixOf query ∨ "https://".data.isPrefixOf query then
        if isInfixL "q=".data query then
          match qParamGroup query with
          | some g => some (qParamCleanup g)
          | Option.none => some query
        else Option.none
      else some query) with hstep
    cases hs : step1 with
    | none => rw [hs] at h; cases h
    | some q2 =>
      rw [hs] at h
      simp only at h
      by_cases hg1 : isInfixL "://".data q2 = true ∨ "site:".data.isPrefixOf q2 = true
      · rw [if_pos hg1] at h
        cases h
      · rw [if_neg hg1] at h
        by_cases hg2 : q2 ≠ [] ∧ 3 < q2.length
        · rw [if_pos hg2] at h
          injection h with h
          subst h
          rw [not_or] at hg1
          exact ⟨hg2.2, Bool.eq_false_iff.mpr hg1.1, Bool.eq_false_iff.mpr hg1.2⟩
        · rw [if_neg hg2] at h
          cases h

/-! ## The claims -/

/-- Claim C3, counterexample: `save_checkpoint` does not follow the
write-to-temporary-then-rename discipline — its trace writes
`<root>/<session_id>/checkpoint.json` directly and contains no rename,
so the atomic-write pattern the claim asserts fails on a concrete
call. -/
theorem claim_C3_counterexample :
    ¬AtomicWritePattern
      (save_checkpoint ["research_checkpoints"] "abc123" "SNAPSHOT")
      (checkpoint_file_path ["research_checkpoints"] "abc123") "SNAPSHOT" := by
  rintro ⟨-, hno⟩
  exact hno "SNAPSHOT" (by decide)

/-- Claim C3, amended: every `save_checkpoint` call creates the session
directory and then writes `checkpoint.json` in place with a single
direct write; its trace contains no rename operation and no write to
any other path, so nothing guarantees a reader never sees a
half-written file. -/
theorem claim_C3_amended (root : List String) (session_id : String) (payload : String) :
    FsOp.writeFile (checkpoint_file_path root session_id) payload ∈
      save_checkpoint root session_id payload ∧
    (∀ src dst, FsOp.rename src dst ∉ save_checkpoint root session_id payload) ∧
    (∀ p c, FsOp.writeFile p c ∈ save_checkpoint root session_id payload →
      p = checkpoint_file_path root session_id ∧ c = payload) := by
  refine ⟨by simp [save_checkpoint], ?_, ?_⟩
  · intro src dst hmem
    simp [save_checkpoint] at hmem
  · intro p c hmem
    simp only [save_checkpoint, List.mem_cons, List.mem_singleton] at hmem
    rcases hmem with h | h | h
    · cases h
    · injection h with h1 h2
      exact ⟨h1, h2⟩
    · cases h

theorem claim_C3_amended_witness :
    FsOp.writeFile (checkpoint_file_path ["research_checkpoints"] "abc123") "SNAPSHOT" ∈
      save_checkpoint ["research_checkpoints"] "abc123" "SNAPSHOT" :=
  (claim_C3_amended ["research_checkpoints"] "abc123" "SNAPSHOT").1

/-- Claim C7, counterexample: the LLM Gateway returns the HTTP error
message verbatim — for a 401 body whose message embeds an
API-key-shaped token, the returned error string still contains the
token, and `sanitize_error` (which would redact it to
`sk-***REDACTED***`) was never applied. -/
theorem claim_C7_counterexample :
    (call_chat_completion "openrouter"
        (.httpError 401
          (some (.jobj [("error", .jobj [("message",
            .jstr "Invalid API key sk-AAAAAAAA provided")])]))
          "")).error = some "HTTP 401: Invalid API key sk-AAAAAAAA provided" ∧
    sanitize_error "HTTP 401: Invalid API key sk-AAAAAAAA provided".data =
      "HTTP 401: Invalid API key sk-***REDACTED*** provided".data ∧
    sanitize_error "HTTP 401: Invalid API key sk-AAAAAAAA provided".data ≠
      "HTTP 401: Invalid API key sk-AAAAAAAA provided".data := by
  refine ⟨rfl, by decide, by decide⟩

/-- Claim C7, amended: `call_chat_completion` returns its error strings
exactly as produced — the raw extracted HTTP message, the literal
`LLM timeout`, or `LLM call failed: ` with the exception text — with no
scrubbing applied inside the Gateway (`sanitize_error` exists in
`security.py` but `llm_client.py` never calls it). -/
theorem claim_C7_amended :
    (∀ provider status payload text,
      (call_chat_completion provider (.httpError status payload text)).error =
        some (extract_error_message
          (match payload with | some j => j | Option.none => .jstr text) (some status))) ∧
    (∀ provider, (call_chat_completion provider .timeout).error = some "LLM timeout") ∧
    (∀ provider msg, (call_chat_completion provider (.exception msg)).error =
      some ("LLM call failed: " ++ msg)) ∧
    (∀ provider body, (call_chat_completion provider (.success body)).error =
      match parse_response body provider with
      | .ok _ => Option.none
      | .error e => some ("LLM call failed: " ++ e)) := by
  refine ⟨fun provider status payload text => rfl, fun provider => rfl,
    fun provider msg => rfl, fun provider body => ?_⟩
  cases hp : parse_response body provider <;> simp [call_chat_completion, hp]

/-- Claim C8, counterexample: the SSE `event_generator` breaks only on a
`done` envelope — an `error` envelope is delivered and the subscription
keeps consuming, so a queue holding `error` then `done` delivers both,
while delivery that "ends when a done or error envelope is consumed"
would stop at the `error`. -/
theorem claim_C8_counterexample :
    event_generator [{ type := "error", message := "boom" }, { type := "done", message := "x" }] =
      [{ type := "connected", message := "Verbunden" },
       { type := "error", message := "boom" }, { type := "done", message := "x" }] ∧
    { type := "connected", message := "Verbunden" } ::
      takeThroughTerminalSpec
        [{ type := "error", message := "boom" }, { type := "done", message := "x" }] =
      [{ type := "connected", message := "Verbunden" },
       { type := "error", message := "boom" }] ∧
    event_generator [{ type := "error", message := "boom" }, { type := "done", message := "x" }] ≠
      { type := "connected", message := "Verbunden" } ::
        takeThroughTerminalSpec
          [{ type := "error", message := "boom" }, { type := "done", message := "x" }] := by
  refine ⟨rfl, rfl, by decide⟩

/-- Claim C8, amended: a subscription delivers `connected`, then every
queued envelope — `error` envelopes included, which do not terminate
it — up to and including the first `done` envelope, which alone ends
the stream; everything queued after the first `done` is not
delivered. -/
theorem claim_C8_amended (pre : List Ev) (d : Ev) (post : List Ev)
    (hd : d.type = "done") (hpre : ∀ e ∈ pre, e.type ≠ "done") :
    event_generator (pre ++ d :: post) =
      { type := "connected", message := "Verbunden" } :: (pre ++ [d]) := by
  unfold event_generator
  rw [takeThroughDone_append pre d post hd hpre]

theorem claim_C8_amended_witness :
    event_generator
      [{ type := "error", message := "boom" }, { type := "done", message := "x" },
       { type := "status", message := "after" }] =
      [{ type := "connected", message := "Verbunden" },
       { type := "error", message := "boom" }, { type := "done", message := "x" }] :=
  claim_C8_amended [{ type := "error", message := "boom" }] { type := "done", message := "x" }
    [{ type := "status", message := "after" }] rfl (by decide)

/-- Claim C9, confirmed: `validate_url` is total and exception-free —
it returns `False` for `None`, for every non-string value, for the
empty string, for any string longer than 2048 characters, and for any
string whose parse raises (the surrounding `try`/`except` turns every
modelled exception into `False`). -/
theorem claim_C9 :
    (∀ ap, validate_url PyVal.none ap = false) ∧
    (∀ v ap, (∀ s, v ≠ PyVal.pstr s) → validate_url v ap = false) ∧
    (∀ ap, validate_url (.pstr "") ap = false) ∧
    (∀ s ap, 2048 < s.length → validate_url (.pstr s) ap = false) ∧
    (∀ s ap e, pyUrlparse s.data = .error e → validate_url (.pstr s) ap = false) := by
  refine ⟨fun ap => rfl, ?_, fun ap => rfl, ?_, ?_⟩
  · intro v ap hv
    cases v with
    | none => rfl
    | pstr s => exact absurd rfl (hv s)
    | pint n => rfl
    | pbool b => rfl
  · intro s ap h
    have hlen : s.length = s.data.length := rfl
    have hne : ¬s.data = [] := by
      intro he
      rw [hlen, he] at h
      simp at h
    show (if s.data = [] then false else validateUrlStr s.data ap) = false
    rw [if_neg hne]
    unfold validateUrlStr
    rw [if_pos (by omega)]
  · intro s ap e h
    show (if s.data = [] then false else validateUrlStr s.data ap) = false
    by_cases hne : s.data = []
    · rw [if_pos hne]
    · rw [if_neg hne]
      unfold validateUrlStr
      by_cases hlen : s.data.length > 2048
      · rw [if_pos hlen]
      · rw [if_neg hlen, h]

theorem claim_C9_witness :
    validate_url PyVal.none false = false ∧
    validate_url (.pint 42) false = false ∧
    validate_url (.pstr "") false = false ∧
    (2048 < (String.mk (List.replicate 2049 'a')).length ∧
      validate_url (.pstr (String.mk (List.replicate 2049 'a'))) false = false) ∧
    (pyUrlparse "http://[::1".data = .error "Invalid IPv6 URL" ∧
      validate_url (.pstr "http://[::1") false = false) :=
  ⟨claim_C9.1 false,
   claim_C9.2.1 (.pint 42) false (fun s h => by cases h),
   claim_C9.2.2.1 false,
   ⟨by
      show 2048 < (List.replicate 2049 'a').length
      rw [List.length_replicate]
      omega,
    claim_C9.2.2.2.1 _ false (by
      show 2048 < (List.replicate 2049 'a').length
      rw [List.length_replicate]
      omega)⟩,
   ⟨rfl, claim_C9.2.2.2.2 _ false _ rfl⟩⟩

/-- Claim C10, confirmed: every query returned by
`parse_think_response` has length greater than 3, contains no `://`,
and does not start with `site:`; at most 10 queries are returned; and a
URL-shaped candidate is only ever kept converted to its `q=` keywords
(otherwise it is dropped). -/
theorem claim_C10 (response : String) (q : List Char)
    (hq : q ∈ parse_think_response response) :
    (3 < q.length ∧ isInfixL "://".data q = false ∧
      "site:".data.isPrefixOf q = false) ∧
    (parse_think_response response).length ≤ 10 ∧
    (∀ query q2, ("http://".data.isPrefixOf query ∨ "https://".data.isPrefixOf query) →
      processThinkQuery query = some q2 →
      ∃ g, qParamGroup query = some g ∧ q2 = qParamCleanup g) := by
  refine ⟨?_, ?_, ?_⟩
  · unfold parse_think_response at hq
    cases hm : afterMarker "=== SEARCHES ===".data response.data with
    | none => rw [hm] at hq; cases hq
    | some part =>
      rw [hm] at hq
      have hq2 := List.mem_of_mem_take hq
      obtain ⟨line, -, hline⟩ := List.mem_filterMap.mp hq2
      unfold thinkLineQuery at hline
      by_cases hmark : lowerStartsWith "search".data (pyStrip line) = true
      · rw [if_pos hmark] at hline
        cases hcol : afterFirst ':' (pyStrip line) with
        | none => rw [hcol] at hline; cases hline
        | some rest =>
          rw [hcol] at hline
          exact processThinkQuery_guards _ _ hline
      · rw [if_neg hmark] at hline
        cases hline
  · unfold parse_think_response
    cases afterMarker "=== SEARCHES ===".data response.data with
    | none => simp
    | some part => exact List.length_take_le _ _
  · intro query q2 hurl hproc
    unfold processThinkQuery at hproc
    have hqne : ¬query = [] := by
      intro he
      subst he
      rcases hurl with h | h <;> simp [List.isPrefixOf] at h
    rw [if_neg hqne] at hproc
    have hurl' : ("http://".data.isPrefixOf query ∨ "https://".data.isPrefixOf query) := hurl
    rw [if_pos hurl'] at hproc
    have hinf : isInfixL "://".data query = true := by
      rcases hurl with h | h
      · exact isInfixL_of_append_isPrefixOf "http".data _ query (by exact h)
      · exact isInfixL_of_append_isPrefixOf "https".data _ query (by exact h)
    by_cases hqeq : isInfixL "q=".data query = true
    · rw [if_pos hqeq] at hproc
      cases hg : qParamGroup query with
      | none =>
        rw [hg] at hproc
        simp only at hproc
        rw [if_pos (Or.inl hinf)] at hproc
        cases hproc
      | some g =>
        rw [hg] at hproc
        simp only at hproc
        refine ⟨g, rfl, ?_⟩
        by_cases hg1 : isInfixL "://".data (qParamCleanup g) = true ∨
            "site:".data.isPrefixOf (qParamCleanup g) = true
        · rw [if_pos hg1] at hproc
          cases hproc
        · rw [if_neg hg1] at hproc
          by_cases hg2 : qParamCleanup g ≠ [] ∧ 3 < (qParamCleanup g).length
          · rw [if_pos hg2] at hproc
            injection hproc with hproc
            exact hproc.symm
          · rw [if_neg hg2] at hproc
            cases hproc
    · rw [if_neg hqeq] at hproc
      simp only at hproc
      cases hproc

theorem claim_C10_witness :
    "hello world".data ∈ parse_think_response
      "=== SEARCHES ===\nsearch 1: hello world\nsearch 2: https://example.com/page" ∧
    3 < "hello world".data.length ∧
    isInfixL "://".data "hello world".data = false ∧
    "site:".data.isPrefixOf "hello world".data = false ∧
    (parse_think_response
      "=== SEARCHES ===\nsearch 1: hello world\nsearch 2: https://example.com/page").length ≤ 10 :=
  have hmem : "hello world".data ∈ parse_think_response
      "=== SEARCHES ===\nsearch 1: hello world\nsearch 2: https://example.com/page" := by decide
  have h := claim_C10 _ _ hmem
  ⟨hmem, h.1.1, h.1.2.1, h.1.2.2, h.2.1⟩

theorem scrape_urls_batch_fst (page : String → Option String) (urls : List String)
    (p : String × String) (hp : p ∈ scrape_urls_batch page urls) :
    p.1 ∈ scrape_urls_batch_navigated urls := by
  obtain ⟨u, hu, hf⟩ := List.mem_filterMap.mp hp
  cases hpage : page u with
  | none => rw [hpage] at hf; cases hf
  | some text =>
    rw [hpage] at hf
    simp only at hf
    by_cases hc : text ≠ "" ∧ 50 < (pyStrip text.data).length
    · rw [if_pos hc] at hf
      by_cases ht : MAX_RESPONSE_SIZE < text.length
      · rw [if_pos ht] at hf
        injection hf with hf
        rw [← hf]
        exact hu
      · rw [if_neg ht] at hf
        injection hf with hf
        rw [← hf]
        exact hu
    · rw [if_neg hc] at hf
      cases hf

theorem pickLineUrl_valid (line : List Char) (u : String)
    (h : pickLineUrl line = some u) : validate_url (.pstr u) false = true := by
  unfold pickLineUrl at h
  by_cases h1 : lowerStartsWith "url".data (pyStrip line) = true
  · rw [if_pos h1] at h
    cases hc : afterFirst ':' (pyStrip line) with
    | none => rw [hc] at h; cases h
    | some rest =>
      rw [hc] at h
      simp only at h
      by_cases h2 : (pyStrip rest).length > MAX_URL_LENGTH
      · rw [if_pos h2] at h
        cases h
      · rw [if_neg h2] at h
        by_cases h3 : "http".data.isPrefixOf (pyStrip rest) = true ∧
            validateUrlStr (pyStrip rest) false = true
        · rw [if_pos h3] at h
          injection h with h
          subst h
          have hne : ¬(String.mk (pyStrip rest)).data = [] := by
            intro he
            have : "http".data.isPrefixOf (pyStrip rest) = true := h3.1
            rw [show (String.mk (pyStrip rest)).data = pyStrip rest from rfl] at he
            rw [he] at this
            simp [List.isPrefixOf] at this
          show (if (String.mk (pyStrip rest)).data = [] then false
            else validateUrlStr (String.mk (pyStrip rest)).data false) = true
          rw [if_neg hne]
          exact h3.2
        · rw [if_neg h3] at h
          cases h
  · rw [if_neg h1] at h
    cases h

/-- Claim C1, counterexample: the Ask-mode scrape path
(`deep_question_pipeline._search_and_scrape_async`) passes the first
search-result URL of each query to the scraper without any validation —
a search result pointing at `http://127.0.0.1:6379/` is scraped even
though `validate_url` rejects it. -/
theorem claim_C1_counterexample :
    askScrapedUrls [[⟨"Redis", "http://127.0.0.1:6379/", "internal"⟩]] =
      ["http://127.0.0.1:6379/"] ∧
    validate_url (.pstr "http://127.0.0.1:6379/") false = false :=
  ⟨rfl, by decide⟩

/-- Claim C1, amended: on the Flat/Academic worker-loop paths the claim
holds — every URL `scrape_urls_batch` navigates passes `validate_url`,
every entry of its result dict is keyed by such a URL, every URL
returned by `parse_pick_urls_response` passes `validate_url`, and
`renumber_citations` preserves validity of all `source_registry`
entries — but it fails on the Ask-mode path (see the
counterexample), where search-result URLs are scraped unvalidated. -/
theorem claim_C1_amended :
    (∀ urls u, u ∈ scrape_urls_batch_navigated urls → validate_url (.pstr u) false = true) ∧
    (∀ page urls p, p ∈ scrape_urls_batch page urls →
      validate_url (.pstr p.1) false = true) ∧
    (∀ r u, u ∈ parse_pick_urls_response r → validate_url (.pstr u) false = true) ∧
    (∀ reg text urls start t' c' reg',
      renumber_citations reg text urls start = .ok (t', c', reg') →
      (∀ u ∈ urls, validate_url (.pstr u) false = true) →
      (∀ p ∈ reg, validate_url (.pstr p.2) false = true) →
      ∀ p ∈ reg', validate_url (.pstr p.2) false = true) := by
  have hnav : ∀ urls u, u ∈ scrape_urls_batch_navigated urls →
      validate_url (.pstr u) false = true := by
    intro urls u hu
    exact (List.mem_filter.mp hu).2
  refine ⟨hnav, ?_, ?_, ?_⟩
  · intro page urls p hp
    exact hnav urls p.1 (scrape_urls_batch_fst page urls p hp)
  · intro r u hu
    have hu2 := List.mem_of_mem_take hu
    obtain ⟨line, -, hline⟩ := List.mem_filterMap.mp hu2
    exact pickLineUrl_valid line u hline
  · intro reg text urls start t' c' reg' hok hurls hreg p hp
    obtain ⟨-, -, hloop⟩ := renumber_citations_ok reg text urls start t' c' reg' hok
    rcases renumLoop_ok_values urls (localToGlobal text start)
        (sortedLocals text).reverse text reg t' reg' hloop p hp with hmem | hmem
    · exact hreg p hmem
    · exact hurls p.2 hmem

theorem claim_C1_amended_witness :
    "https://example.com/a" ∈
      scrape_urls_batch_navigated ["https://example.com/a", "http://localhost/x"] ∧
    validate_url (.pstr "https://example.com/a") false = true :=
  ⟨by decide,
   claim_C1_amended.1 ["https://example.com/a", "http://localhost/x"]
     "https://example.com/a" (by decide)⟩

/-- Claim C2, counterexample: resuming after `k = 1` completed dossiers
does not always yield a final `done` with `completed_dossiers` equal to
the plan length — a remaining point can be skipped (here: Think
failure), leaving the final count at 1 for a 2-point plan. -/
theorem claim_C2_counterexample :
    resume_session (fun _ _ => .skipped "think_failed")
      { user_query := "q", research_plan := ["P1", "P2"],
        completed_dossiers := [{ point := "P1", dossier := "D1", sources := ["https://s1"] }],
        accumulated_learnings := [], remaining_points := ["P2"] } =
      .ok { completed_dossiers := [{ point := "P1", dossier := "D1", sources := ["https://s1"] }],
            accumulated_learnings := [], point_index := 2, point_events := [(2, false)] } ∧
    doneCompletedCount
      { completed_dossiers := [{ point := "P1", dossier := "D1", sources := ["https://s1"] }],
        accumulated_learnings := [], point_index := 2, point_events := [(2, false)] } = 1 ∧
    (1 : Nat) ≠ 2 :=
  ⟨rfl, rfl, by decide⟩

/-- Claim C2, amended: resumption loads the checkpoint, pre-seeds
`completed_dossiers` and `accumulated_learnings`, runs the Worker Loop
over exactly the remaining points with the point counter starting at
`k + 1` — and, provided no prior point was skipped
(`k + |remaining| = |plan|`) and every remaining point completes, the
final `done` count equals the plan length and the first `k` dossiers
are exactly the checkpoint's. -/
theorem claim_C2_amended (oracle : Nat → String → PointOutcome) (ckpt : CheckpointRec)
    (st : LoopState)
    (hok : resume_session oracle ckpt = .ok st)
    (hplan : ckpt.completed_dossiers.length + ckpt.remaining_points.length =
      ckpt.research_plan.length)
    (hsucc : ∀ i p, p ∈ ckpt.remaining_points → ∃ d lrn, oracle i p = .completed d lrn) :
    doneCompletedCount st = ckpt.research_plan.length ∧
    st.completed_dossiers.take ckpt.completed_dossiers.length = ckpt.completed_dossiers ∧
    st.point_events.map Prod.fst =
      List.range' (ckpt.completed_dossiers.length + 1) ckpt.remaining_points.length ∧
    st.point_index = ckpt.research_plan.length := by
  unfold resume_session at hok
  by_cases hrem : ckpt.remaining_points = []
  · rw [if_pos hrem] at hok
    cases hok
  · rw [if_neg hrem] at hok
    injection hok with hok
    obtain ⟨newds, newevs, h1, h2, h3, h4, h5, h6⟩ :=
      runPoints_all_completed oracle ckpt.remaining_points hsucc
        { completed_dossiers := ckpt.completed_dossiers
          accumulated_learnings := ckpt.accumulated_learnings
          point_index := ckpt.completed_dossiers.length
          point_events := [] }
    rw [← hok]
    refine ⟨?_, ?_, ?_, ?_⟩
    · unfold doneCompletedCount
      rw [h1]
      simp only [List.length_append]
      omega
    · rw [h1]
      exact List.take_left _ _
    · rw [h3]
      simpa using h4
    · rw [h6]
      simpa using hplan

theorem claim_C2_amended_witness :
    resume_session (fun _ p => .completed { point := p, dossier := "D", sources := [] }
        (some "L"))
      { user_query := "q", research_plan := ["P1", "P2"],
        completed_dossiers := [{ point := "P1", dossier := "D1", sources := ["https://s1"] }],
        accumulated_learnings := [], remaining_points := ["P2"] } =
      .ok { completed_dossiers :=
              [{ point := "P1", dossier := "D1", sources := ["https://s1"] },
               { point := "P2", dossier := "D", sources := [] }],
            accumulated_learnings := ["L"], point_index := 2, point_events := [(2, true)] } ∧
    doneCompletedCount
      { completed_dossiers :=
          [{ point := "P1", dossier := "D1", sources := ["https://s1"] },
           { point := "P2", dossier := "D", sources := [] }],
        accumulated_learnings := ["L"], point_index := 2, point_events := [(2, true)] } = 2 :=
  have happ := claim_C2_amended
    (fun _ p => .completed { point := p, dossier := "D", sources := [] } (some "L"))
    { user_query := "q", research_plan := ["P1", "P2"],
      completed_dossiers := [{ point := "P1", dossier := "D1", sources := ["https://s1"] }],
      accumulated_learnings := [], remaining_points := ["P2"] }
    { completed_dossiers :=
        [{ point := "P1", dossier := "D1", sources := ["https://s1"] },
         { point := "P2", dossier := "D", sources := [] }],
      accumulated_learnings := ["L"], point_index := 2, point_events := [(2, true)] }
    rfl (by decide) (fun _ _ _ => ⟨_, _, rfl⟩)
  ⟨rfl, happ.1⟩

/-- Claim C4, counterexample: the highest-to-lowest rewrite is not
collision-free for every set of local indices — on `"[2] [5]"` with
start 1, local 5 is first rewritten to `[2]`, which the subsequent
rewrite of local 2 also captures, so the two distinct locals both end
up bearing `[1]`. -/
theorem claim_C4_counterexample :
    renumber_citations [] "[2] [5]".data ["u1", "u2", "u3", "u4", "u5"] 1 =
      .ok ("[1] [1]".data, 3, [(1, "u2"), (2, "u5")]) ∧
    extractCits "[2] [5]".data = ["2".data, "5".data] ∧
    extractCits "[1] [1]".data = ["1".data, "1".data] ∧
    parseVal "2".data ≠ parseVal "5".data :=
  ⟨rfl, rfl, rfl, by decide⟩

/-- Claim C4, amended: the renumbering assigns each distinct local
index, in ascending order, the next global index, and whenever the
start index is at least 1, every local index is at most its assigned
global index, and the text's citation tokens are canonically written,
the rewrite is collision-free: the output's token sequence is exactly
the input's mapped pointwise through the assignment, and distinct
locals receive distinct globals. -/
theorem claim_C4_amended (reg : Registry) (text : List Char) (local_urls : List String)
    (start_num : Int) (t' : List Char) (c' : Int) (reg' : Registry)
    (hok : renumber_citations reg text local_urls start_num = .ok (t', c', reg'))
    (hstart : 1 ≤ start_num)
    (hle : ∀ m ∈ sortedLocals text, (m : Int) ≤ localToGlobal text start_num m)
    (hcanon : ∀ d ∈ extractCits text, d = natRepr (parseVal d)) :
    extractCits t' =
      (extractCits text).map
        (fun d => intRepr (localToGlobal text start_num (parseVal d))) ∧
    c' = start_num + (sortedLocals text).length ∧
    (∀ m n, m ∈ sortedLocals text → n ∈ sortedLocals text → m ≠ n →
      localToGlobal text start_num m ≠ localToGlobal text start_num n) := by
  refine ⟨renumber_extract reg text local_urls start_num t' c' reg' hok hstart hle hcanon,
    (renumber_citations_ok reg text local_urls start_num t' c' reg' hok).2.1, ?_⟩
  intro m n hm hn hmn hglob
  unfold localToGlobal at hglob
  have hidx : (sortedLocals text).indexOf m = (sortedLocals text).indexOf n := by omega
  exact hmn ((List.indexOf_inj hm hn).mp hidx)

theorem claim_C4_amended_witness :
    renumber_citations [] "[1] [2]".data ["u1", "u2"] 1 =
      .ok ("[1] [2]".data, 3, [(1, "u1"), (2, "u2")]) ∧
    extractCits "[1] [2]".data =
      (extractCits "[1] [2]".data).map
        (fun d => intRepr (localToGlobal "[1] [2]".data 1 (parseVal d))) :=
  ⟨rfl,
   (claim_C4_amended [] "[1] [2]".data ["u1", "u2"] 1 "[1] [2]".data 3 [(1, "u1"), (2, "u2")]
     rfl (by decide) (by decide) (by decide)).1⟩

/-- Claim C5, counterexample: the registry is not append-only — after
the dossier pass of `"[1] [2] [3]"` assigns global 1 to `uA`, the
key-learnings pass (started at `source_counter - len(dossier_urls)`)
reassigns global 1 to `uB` because the learnings cite only `[2] [3]`. -/
theorem claim_C5_counterexample :
    (renumber_citations [] "[1] [2] [3]".data ["uA", "uB", "uC"] 1).map
      (fun s => regGet s.2.2 1) = .ok (some "uA") ∧
    (processDossierCitations [] 1 "[1] [2] [3]".data "[2] [3]".data ["uA", "uB", "uC"]).map
      (fun s => regGet s.2.2.2 1) = .ok (some "uB") ∧
    ("uA" : String) ≠ "uB" :=
  ⟨rfl, rfl, by decide⟩

/-- Claim C5, amended: the global counter is monotonic — every
successful `renumber_citations` call returns
`start_num + |distinct locals| ≥ start_num`, it never touches registry
entries below its start index (so later dossier passes, which start at
the running counter, never reassign earlier indices), and
`processDossierCitations` never decreases the counter; however the
key-learnings pass, which restarts below the counter, may reassign
(see the counterexample). -/
theorem claim_C5_amended (reg : Registry) (text : List Char) (local_urls : List String)
    (start_num : Int) (t' : List Char) (c' : Int) (reg' : Registry)
    (hok : renumber_citations reg text local_urls start_num = .ok (t', c', reg')) :
    c' = start_num + (sortedLocals text).length ∧
    start_num ≤ c' ∧
    (∀ j : Int, j < start_num → regGet reg' j = regGet reg j) ∧
    (∀ (reg₀ : Registry) (counter : Int) (dossier learn : List Char)
        (urls₀ : List String) (t₂ k₂ : List Char) (c₂ : Int) (reg₂ : Registry),
      processDossierCitations reg₀ counter dossier learn urls₀ = .ok (t₂, k₂, c₂, reg₂) →
      counter ≤ c₂) := by
  obtain ⟨-, hc, hloop⟩ := renumber_citations_ok reg text local_urls start_num t' c' reg' hok
  refine ⟨hc, by rw [hc]; omega, ?_, ?_⟩
  · intro j hj
    refine renumLoop_ok_get local_urls (localToGlobal text start_num)
      (sortedLocals text).reverse j ?_ text reg t' reg' hloop
    intro m hm
    unfold localToGlobal
    have hix : (0 : Int) ≤ ((sortedLocals text).indexOf m : Int) := by positivity
    omega
  · intro reg₀ counter dossier learn urls₀ t₂ k₂ c₂ reg₂ hpd
    unfold processDossierCitations at hpd
    cases h1 : renumber_citations reg₀ dossier urls₀ counter with
    | error e => rw [h1] at hpd; cases hpd
    | ok s =>
      rw [h1] at hpd
      obtain ⟨t₁, c₁, reg₁⟩ := s
      have hc1 : c₁ = counter + ((sortedLocals dossier).length : Int) :=
        (renumber_citations_ok reg₀ dossier urls₀ counter t₁ c₁ reg₁ h1).2.1
      simp only at hpd
      by_cases hl : learn = []
      · rw [if_pos hl] at hpd
        injection hpd with hpd
        have : c₂ = c₁ := by
          have := congrArg (fun x => x.2.2.1) hpd
          simpa using this.symm
        rw [this, hc1]
        omega
      · rw [if_neg hl] at hpd
        cases h2 : renumber_citations reg₁ learn urls₀ (c₁ - urls₀.length) with
        | error e => rw [h2] at hpd; cases hpd
        | ok s2 =>
          rw [h2] at hpd
          obtain ⟨k₁, cx, regx⟩ := s2
          simp only at hpd
          injection hpd with hpd
          have : c₂ = c₁ := by
            have := congrArg (fun x => x.2.2.1) hpd
            simpa using this.symm
          rw [this, hc1]
          omega

theorem claim_C5_amended_witness :
    (3 : Int) = 1 + ((sortedLocals "[1] [2]".data).length : Int) ∧ (1 : Int) ≤ 3 :=
  have h := claim_C5_amended [] "[1] [2]".data ["u1", "u2"] 1 "[1] [2]".data 3
    [(1, "u1"), (2, "u2")] rfl
  ⟨h.1, h.2.1⟩

/-- Claim C6, counterexample: the key-learnings pass does not reuse the
dossier's local-to-global mapping — for dossier `"[1] [2]"` (urls
`uA`, `uB`) the dossier maps local 2 to global 2, but the learnings
`"[2]"`, renumbered from `source_counter - len(dossier_urls) = 1`, map
local 2 to global 1, so the shared local token is rewritten
differently in the two texts. -/
theorem claim_C6_counterexample :
    processDossierCitations [] 1 "[1] [2]".data "[2]".data ["uA", "uB"] =
      .ok ("[1] [2]".data, "[1]".data, 3, [(1, "uB"), (2, "uB")]) ∧
    localToGlobal "[1] [2]".data 1 2 = 2 ∧
    extractCits "[1]".data = ["1".data] ∧
    ((2 : Int) ≠ 1) :=
  ⟨rfl, rfl, rfl, by decide⟩

/-- Claim C6, amended: the key-learnings pass receives the same
local-to-global assignment as the dossier text exactly when the
learnings' distinct local citation set equals the dossier's and the
dossier's number of distinct locals equals the number of dossier URLs —
then its start index `c' - len(urls)` equals the dossier's start and
every local maps to the same global in both texts. -/
theorem claim_C6_amended (reg : Registry) (counter : Int) (dossier learn : List Char)
    (urls : List String) (t' : List Char) (c' : Int) (reg' : Registry)
    (hok : renumber_citations reg dossier urls counter = .ok (t', c', reg'))
    (hsets : sortedLocals learn = sortedLocals dossier)
    (hlen : (sortedLocals dossier).length = urls.length) :
    c' - (urls.length : Int) = counter ∧
    ∀ m : Nat, localToGlobal learn (c' - (urls.length : Int)) m =
      localToGlobal dossier counter m := by
  have hc : c' = counter + ((sortedLocals dossier).length : Int) :=
    (renumber_citations_ok reg dossier urls counter t' c' reg' hok).2.1
  have hstart : c' - (urls.length : Int) = counter := by
    rw [hc, hlen]
    ring
  refine ⟨hstart, ?_⟩
  intro m
  unfold localToGlobal
  rw [hsets, hstart]

theorem claim_C6_amended_witness :
    (3 : Int) - ((["uA", "uB"] : List String).length : Int) = 1 ∧
    localToGlobal "[2] [1]".data ((3 : Int) - ((["uA", "uB"] : List String).length : Int)) 2 =
      localToGlobal "[1] [2]".data 1 2 :=
  have h := claim_C6_amended [] 1 "[1] [2]".data "[2] [1]".data ["uA", "uB"]
    "[1] [2]".data 3 [(1, "uA"), (2, "uB")] rfl (by decide) (by decide)
  ⟨h.1, h.2 2⟩

end Lutum

